import Mathlib

/-!
# Product Review Sentiment Analyzer: page script (`static/css/main.js`)

A shallow embedding of the page script.  The DOM state the handlers read and
write is an explicit record (`Page`); every handler is a function on it.
Platform services that are not part of the script (the `URL` constructor,
`document.querySelector`) are parameters of the handlers that call them.
Time is a virtual millisecond clock with a queue of pending `setTimeout`
callbacks.
-/

namespace MainJs

/-! ## Strings -/

/-- `String.prototype.toLowerCase` on the host names the `URL` object hands
out (these are ASCII: domains are punycoded, opaque hosts percent-encoded). -/
def toLowerCase (s : String) : String := ⟨s.data.map Char.toLower⟩

/-- `String.prototype.startsWith`. -/
def startsWith (s p : String) : Bool := p.data.isPrefixOf s.data

/-- `String.prototype.substring` with one argument. -/
def substring (s : String) (n : Nat) : String := ⟨s.data.drop n⟩

/-! ## Class lists -/

/-- `DOMTokenList.add` with one token. -/
def classListAdd (cl : List String) (t : String) : List String :=
  if t ∈ cl then cl else cl ++ [t]

/-- `DOMTokenList.remove` with any number of tokens. -/
def classListRemove (cl : List String) (ts : List String) : List String :=
  cl.filter (fun c => !(ts.contains c))

/-! ## Page state -/

/-- The part of a `URL` object the script reads. -/
structure URL where
  hostname : String
deriving DecidableEq, Repr

/-- A call forwarded to the Bootstrap modal instance. -/
inductive ModalCall
  | show
  | hide
deriving DecidableEq, Repr

/-- The `bootstrap.Modal` instance held in `window.loadingModalInstance`. -/
structure Modal where
  backdrop : String
  keyboard : Bool
  calls : List ModalCall
deriving DecidableEq, Repr

/-- A child node of a container element. -/
structure Node where
  id : Nat
  className : String
  innerHTML : String
deriving DecidableEq, Repr

/-- An element matching `.container`; `mt3` tells whether it also carries the
class `mt-3`. -/
structure Container where
  mt3 : Bool
  children : List Node
deriving DecidableEq, Repr

/-- The two deferred callbacks the script hands to `setTimeout`. -/
inductive Callback
  | revertCopyIcon (btn : Nat)
  | removeAlert (alertId : Nat)
deriving DecidableEq, Repr

/-- A pending `setTimeout` entry. -/
structure Timer where
  due : Nat
  callback : Callback
deriving DecidableEq, Repr

/-- A copy button together with the `code` element it was created for. -/
structure CopyBtn where
  textContent : String
  innerHTML : String
deriving DecidableEq, Repr

/-- What the script hands to the system clipboard. -/
inductive ClipboardOp
  | writeText (text : String)
  | execCopy (selected : String)
deriving DecidableEq, Repr

/-- The state of the page the handlers act on. -/
structure Page where
  now : Nat
  urlValue : String
  urlClassList : List String
  submitDisabled : Bool
  submitInnerHTML : String
  loadingModalInstance : Option Modal
  containers : List Container
  nextId : Nat
  timers : List Timer
  copyButtons : List CopyBtn
  hasClipboard : Bool
  clipboardOps : List ClipboardOp
  pendingWrites : Nat
deriving DecidableEq, Repr

/-! ## Form validation (`setupFormValidation`) -/

/-- The constant `allowedDomains`. -/
def allowedDomains : List String :=
  ["quotes.toscrape.com", "books.toscrape.com", "scrapethissite.com", "httpbin.org"]

/-- The host name as `validateUrl` normalises it: lower-cased, one leading
`www.` removed. -/
def normalizeDomain (hostname : String) : String :=
  let domain := toLowerCase hostname
  if startsWith domain "www." then substring domain 4 else domain

/-- The function `validateUrl`; `newURL` is the platform's `URL` constructor,
`none` standing for the `TypeError` it throws. -/
def validateUrl (newURL : String → Option URL) (url : String) (s : Page) : Bool × Page :=
  if url = "" then (false, s)
  else
    match newURL url with
    | some urlObj =>
      let domain := normalizeDomain urlObj.hostname
      let isValid := allowedDomains.contains domain
      if url ≠ "" ∧ !isValid then
        let cl := classListRemove (classListAdd s.urlClassList "is-invalid") ["is-valid"]
        (isValid, { s with urlClassList := cl })
      else if url ≠ "" ∧ isValid then
        let cl := classListRemove (classListAdd s.urlClassList "is-valid") ["is-invalid"]
        (isValid, { s with urlClassList := cl })
      else
        let cl := classListRemove s.urlClassList ["is-valid", "is-invalid"]
        (isValid, { s with urlClassList := cl })
    | none =>
      let cl := classListRemove (classListAdd s.urlClassList "is-invalid") ["is-valid"]
      (false, { s with urlClassList := cl })

/-! ## Loading modal -/

/-- The function `setupLoadingModal`; `loadingModal` tells whether
`document.getElementById('loadingModal')` finds an element. -/
def setupLoadingModal (loadingModal : Bool) (s : Page) : Page :=
  if !loadingModal then s
  else { s with loadingModalInstance := some { backdrop := "static", keyboard := false, calls := [] } }

/-- The function `showLoadingModal`. -/
def showLoadingModal (s : Page) : Page :=
  match s.loadingModalInstance with
  | some m =>
    { s with loadingModalInstance := some { m with calls := m.calls ++ [ModalCall.show] } }
  | none => s

/-- The function `hideLoadingModal`. -/
def hideLoadingModal (s : Page) : Page :=
  match s.loadingModalInstance with
  | some m =>
    { s with loadingModalInstance := some { m with calls := m.calls ++ [ModalCall.hide] } }
  | none => s

/-! ## Notifications -/

/-- Index of the first container carrying `mt-3`: `querySelector('.container.mt-3')`. -/
def firstMt3 : List Container → Option Nat
  | [] => none
  | c :: cs => if c.mt3 then some 0 else (firstMt3 cs).map Nat.succ

/-- The constant `alertContainer` of `showAlert`:
`querySelector('.container.mt-3') || querySelector('.container')`. -/
def alertContainer (s : Page) : Option Nat :=
  match firstMt3 s.containers with
  | some k => some k
  | none => if s.containers.isEmpty then none else some 0

/-- Runs `insertBefore(n, firstChild)` on the container with index `k`. -/
def prependChild (n : Node) : Nat → List Container → List Container
  | _, [] => []
  | 0, c :: cs => { c with children := n :: c.children } :: cs
  | k + 1, c :: cs => c :: prependChild n k cs

/-- The element `alertDiv` that `showAlert` builds; `id` is its identity. -/
def alertDiv (id : Nat) (message type : String) : Node :=
  { id := id
    className := "alert alert-" ++ type ++ " alert-dismissible fade show"
    innerHTML := "\n        <i class=\"fas fa-"
      ++ (if type = "success" then "check-circle" else "exclamation-triangle")
      ++ " me-2\"></i>\n        " ++ message
      ++ "\n        <button type=\"button\" class=\"btn-close\" data-bs-dismiss=\"alert\"></button>\n    " }

/-- The function `showAlert`. -/
def showAlert (message type : String) (s : Page) : Page :=
  match alertContainer s with
  | none => s
  | some k =>
    { s with
      containers := prependChild (alertDiv s.nextId message type) k s.containers
      nextId := s.nextId + 1
      timers := s.timers ++ [{ due := s.now + 5000, callback := Callback.removeAlert s.nextId }] }

/-- The function `showError`. -/
def showError (message : String) (s : Page) : Page := showAlert message "danger" s

/-- The function `showSuccess`. -/
def showSuccess (message : String) (s : Page) : Page := showAlert message "success" s

/-- Whether the node `id` has a parent (`alertDiv.parentNode`). -/
def attached (id : Nat) (s : Page) : Bool :=
  s.containers.any (fun c => c.children.any (fun n => n.id == id))

/-- Runs `remove()` on the node `id`. -/
def removeNode (id : Nat) (s : Page) : Page :=
  { s with containers :=
      s.containers.map (fun c => { c with children := c.children.filter (fun n => n.id != id) }) }

/-- The children of the container with index `k`. -/
def childrenOf (k : Nat) (s : Page) : List Node :=
  match s.containers.get? k with
  | some c => c.children
  | none => []

/-- The error notifications on the page. -/
def errorNotifications (s : Page) : List Node :=
  (s.containers.map (fun c => c.children)).flatten.filter
    (fun n => n.className == "alert alert-danger alert-dismissible fade show")

/-- Number of nodes in the containers of the page. -/
def nodeCount (s : Page) : Nat :=
  (s.containers.map (fun c => c.children)).flatten.length

/-! ## Submit and input listeners -/

/-- The `submit` listener of the form: the first component is whether
`e.preventDefault()` was called. -/
def onSubmit (newURL : String → Option URL) (s : Page) : Bool × Page :=
  let r := validateUrl newURL s.urlValue s
  if !r.1 then
    (true, showError "Please enter a valid URL from one of our supported demo sites." r.2)
  else
    let s2 := showLoadingModal r.2
    (false, { s2 with
      submitDisabled := true
      submitInnerHTML := "<i class=\"fas fa-spinner fa-spin me-2\"></i>Processing..." })

/-- The `input` listener of the URL field, run after the field took `value`. -/
def onInput (newURL : String → Option URL) (value : String) (s : Page) : Page :=
  (validateUrl newURL value { s with urlValue := value }).2

/-! ## Smooth scrolling -/

/-- A call of `scrollIntoView` on the element `target`. -/
structure ScrollCall where
  target : Nat
  behavior : String
  block : String
deriving DecidableEq, Repr

/-- What a click on an in-page anchor did. -/
structure ClickOutcome where
  defaultPrevented : Bool
  scrolls : List ScrollCall
  thrown : Option String
deriving DecidableEq, Repr

/-- The `click` listener installed by `setupSmoothScrolling` on an anchor with
the attribute `href`; `querySelector` is `document.querySelector`, which
returns an element, `null`, or throws. -/
def anchorOnClick (querySelector : String → Except String (Option Nat)) (href : String) :
    ClickOutcome :=
  match querySelector href with
  | Except.error e => { defaultPrevented := true, scrolls := [], thrown := some e }
  | Except.ok none => { defaultPrevented := true, scrolls := [], thrown := none }
  | Except.ok (some target) =>
    { defaultPrevented := true
      scrolls := [{ target := target, behavior := "smooth", block := "start" }]
      thrown := none }

/-! ## Copy to clipboard -/

/-- The copy icon a button is created with. -/
def copyIcon : String := "<i class=\"fas fa-copy\"></i>"

/-- The confirmation icon. -/
def checkIcon : String := "<i class=\"fas fa-check text-success\"></i>"

/-- The function `setupCopyToClipboard`; `codes` are the text contents of the
`code` elements of the document. -/
def setupCopyToClipboard (codes : List String) (s : Page) : Page :=
  { s with copyButtons := s.copyButtons ++ codes.map (fun t => { textContent := t, innerHTML := copyIcon }) }

/-- Assigns `innerHTML` of the copy button with index `i`. -/
def setButtonHTML (html : String) : Nat → List CopyBtn → List CopyBtn
  | _, [] => []
  | 0, b :: bs => { b with innerHTML := html } :: bs
  | i + 1, b :: bs => b :: setButtonHTML html i bs

/-- The `innerHTML` of the copy button with index `i`. -/
def buttonHTML (i : Nat) (s : Page) : Option String :=
  (s.copyButtons.get? i).map (fun b => b.innerHTML)

/-- The function `copyToClipboard`.  With `navigator.clipboard` the success
notification waits for the promise of `writeText`; the fallback selects a
temporary text area holding `text`, copies the selection and removes the area. -/
def copyToClipboard (text : String) (s : Page) : Page :=
  if s.hasClipboard then
    { s with
      clipboardOps := s.clipboardOps ++ [ClipboardOp.writeText text]
      pendingWrites := s.pendingWrites + 1 }
  else
    showSuccess "Copied to clipboard!"
      { s with clipboardOps := s.clipboardOps ++ [ClipboardOp.execCopy text] }

/-- The `onclick` handler of the copy button with index `i`. -/
def copyBtnOnclick (i : Nat) (s : Page) : Page :=
  match s.copyButtons.get? i with
  | none => s
  | some b =>
    let s1 := copyToClipboard b.textContent s
    { s1 with
      copyButtons := setButtonHTML checkIcon i s1.copyButtons
      timers := s1.timers ++ [{ due := s1.now + 2000, callback := Callback.revertCopyIcon i }] }

/-! ## Timers and the event loop -/

/-- Runs a deferred callback. -/
def runCallback : Callback → Page → Page
  | Callback.revertCopyIcon i, s => { s with copyButtons := setButtonHTML copyIcon i s.copyButtons }
  | Callback.removeAlert id, s => if attached id s then removeNode id s else s

/-- Lets `ms` milliseconds pass: the timers that come due fire in the order of
their due times (registration order among equals).  No callback of the script
reads the clock or registers a timer. -/
def advance (ms : Nat) (s : Page) : Page :=
  let t := s.now + ms
  let fired := List.insertionSort (fun a b => a.due ≤ b.due) (s.timers.filter (fun x => x.due ≤ t))
  let s1 := { s with now := t, timers := s.timers.filter (fun x => !(decide (x.due ≤ t))) }
  fired.foldl (fun acc x => runCallback x.callback acc) s1

/-- What can happen on the page after it was set up. -/
inductive Event
  | input (value : String)
  | submit
  | clickCopy (btn : Nat)
  | clipboardDone
  | dismiss (alertId : Nat)
  | notify (message type : String)
  | showLoading
  | hideLoading
  | advance (ms : Nat)
deriving DecidableEq, Repr

/-- One turn of the event loop. -/
def step (newURL : String → Option URL) : Event → Page → Page
  | Event.input v, s => onInput newURL v s
  | Event.submit, s => (onSubmit newURL s).2
  | Event.clickCopy i, s => copyBtnOnclick i s
  | Event.clipboardDone, s =>
    if s.pendingWrites = 0 then s
    else showSuccess "Copied to clipboard!" { s with pendingWrites := s.pendingWrites - 1 }
  | Event.dismiss id, s => removeNode id s
  | Event.notify m t, s => showAlert m t s
  | Event.showLoading, s => showLoadingModal s
  | Event.hideLoading, s => hideLoadingModal s
  | Event.advance ms, s => advance ms s

/-- Runs a sequence of events. -/
def run (newURL : String → Option URL) (evs : List Event) (s : Page) : Page :=
  evs.foldl (fun acc e => step newURL e acc) s

/-- The time a sequence of events takes. -/
def elapsed : List Event → Nat
  | [] => 0
  | Event.advance ms :: evs => ms + elapsed evs
  | _ :: evs => elapsed evs

/-- The page `t` differs from `s` by a handler that leaves the clock and the
copy buttons alone, attaches no node that existed before, cancels no timer and
registers none but removals of new notifications. -/
def Calm (s t : Page) : Prop :=
  t.now = s.now ∧ s.nextId ≤ t.nextId ∧
  (∀ id, id < s.nextId → attached id t = true → attached id s = true) ∧
  (∀ x ∈ s.timers, x ∈ t.timers) ∧
  t.copyButtons = s.copyButtons ∧
  (∀ x ∈ t.timers, x ∈ s.timers ∨ ∃ id, s.nextId ≤ id ∧ x.callback = Callback.removeAlert id)

/-! ## A sample platform -/

/-- Splits `scheme://rest` at the first `://`. -/
def splitScheme : List Char → Option (List Char × List Char)
  | [] => none
  | c :: cs =>
    if (c :: cs).take 3 = [':', '/', '/'] then some ([], cs.drop 2)
    else (splitScheme cs).map (fun p => (c :: p.1, p.2))

/-- A small stand-in for the `URL` constructor, used for concrete examples:
it accepts `scheme://host` followed by an optional path, query or fragment and
rejects everything else. -/
def sampleURL (url : String) : Option URL :=
  match splitScheme url.data with
  | none => none
  | some (scheme, rest) =>
    let host := rest.takeWhile (fun c => c != '/' && c != '?' && c != '#')
    if scheme = [] ∨ host = [] ∨ !(scheme.all Char.isAlpha) then none
    else some ⟨⟨host⟩⟩

/-- Selector lookup in a sample document whose only element with an id is
element `7`, with id `results`.  A bare `#` is not a selector: the platform
throws a `SyntaxError` for it. -/
def sampleQuerySelector (selector : String) : Except String (Option Nat) :=
  if selector = "#" then Except.error "SyntaxError"
  else if selector = "#results" then Except.ok (some 7)
  else Except.ok none

/-- A page with the form wired up and nothing else on it. -/
def emptyPage : Page :=
  { now := 0, urlValue := "", urlClassList := ["form-control"], submitDisabled := false,
    submitInnerHTML := "Analyze", loadingModalInstance := none, containers := [],
    nextId := 0, timers := [], copyButtons := [], hasClipboard := true,
    clipboardOps := [], pendingWrites := 0 }

/-- A page with one container and a loading modal, before the copy buttons are
set up. -/
def sampleBase : Page :=
  setupLoadingModal true { emptyPage with containers := [{ mt3 := true, children := [] }] }

/-- The sample page set up: one container, a loading modal and two code
snippets with their copy buttons. -/
def samplePage : Page :=
  setupCopyToClipboard ["pip install", "python app.py"] sampleBase

/-- The sample page 1500ms after its second copy button was clicked. -/
def clickedBeforePage : Page :=
  run sampleURL [Event.clickCopy 1, Event.advance 1500] samplePage

/-- A page whose URL field was marked valid before. -/
def markedValidPage : Page := { emptyPage with urlClassList := ["form-control", "is-valid"] }

/-- A page whose URL field was marked invalid before. -/
def markedInvalidPage : Page := { emptyPage with urlClassList := ["form-control", "is-invalid"] }

/-- A page without any container element, its URL field holding a foreign URL. -/
def noContainerPage : Page := { emptyPage with urlValue := "https://evil.com/reviews" }

/-- The sample page with a foreign URL typed into the field. -/
def foreignUrlPage : Page := { samplePage with urlValue := "https://evil.com/reviews" }

/-- The sample page with an allowed URL typed into the field. -/
def allowedUrlPage : Page := { samplePage with urlValue := "https://books.toscrape.com/" }

/-! ## Class-list lemmas -/

theorem mem_classListAdd (cl : List String) (t x : String) :
    x ∈ classListAdd cl t ↔ x ∈ cl ∨ x = t := by
  unfold classListAdd
  split
  · constructor
    · intro h; exact Or.inl h
    · rintro (h | h)
      · exact h
      · subst h; assumption
  · simp

theorem mem_classListRemove (cl ts : List String) (x : String) :
    x ∈ classListRemove cl ts ↔ x ∈ cl ∧ x ∉ ts := by
  simp [classListRemove]

theorem marked_invalid (cl : List String) :
    "is-invalid" ∈ classListRemove (classListAdd cl "is-invalid") ["is-valid"] ∧
    "is-valid" ∉ classListRemove (classListAdd cl "is-invalid") ["is-valid"] := by
  simp [mem_classListRemove, mem_classListAdd]

theorem marked_valid (cl : List String) :
    "is-valid" ∈ classListRemove (classListAdd cl "is-valid") ["is-invalid"] ∧
    "is-invalid" ∉ classListRemove (classListAdd cl "is-valid") ["is-invalid"] := by
  simp [mem_classListRemove, mem_classListAdd]

/-! ## What `validateUrl` computes -/

theorem validateUrl_empty (newURL : String → Option URL) (s : Page) :
    validateUrl newURL "" s = (false, s) := by
  simp [validateUrl]

theorem validateUrl_malformed (newURL : String → Option URL) (url : String) (s : Page)
    (hne : url ≠ "") (hparse : newURL url = none) :
    validateUrl newURL url s = (false, { s with
      urlClassList := classListRemove (classListAdd s.urlClassList "is-invalid") ["is-valid"] }) := by
  simp [validateUrl, hne, hparse]

theorem validateUrl_allowed (newURL : String → Option URL) (url : String) (u : URL) (s : Page)
    (hne : url ≠ "") (hparse : newURL url = some u)
    (hmem : normalizeDomain u.hostname ∈ allowedDomains) :
    validateUrl newURL url s = (true, { s with
      urlClassList := classListRemove (classListAdd s.urlClassList "is-valid") ["is-invalid"] }) := by
  simp [validateUrl, hne, hparse, hmem]

theorem validateUrl_foreign (newURL : String → Option URL) (url : String) (u : URL) (s : Page)
    (hne : url ≠ "") (hparse : newURL url = some u)
    (hmem : normalizeDomain u.hostname ∉ allowedDomains) :
    validateUrl newURL url s = (false, { s with
      urlClassList := classListRemove (classListAdd s.urlClassList "is-invalid") ["is-valid"] }) := by
  simp [validateUrl, hne, hparse, hmem]

/-- The verdict of `validateUrl` in terms of the parse result. -/
theorem validateUrl_fst (newURL : String → Option URL) (url : String) (s : Page) :
    (validateUrl newURL url s).1 = true ↔
      url ≠ "" ∧ ∃ u, newURL url = some u ∧ normalizeDomain u.hostname ∈ allowedDomains := by
  by_cases hne : url = ""
  · subst hne; simp [validateUrl_empty]
  · cases hparse : newURL url with
    | none => simp [validateUrl_malformed newURL url s hne hparse, hne]
    | some u =>
      by_cases hmem : normalizeDomain u.hostname ∈ allowedDomains
      · simp [validateUrl_allowed newURL url u s hne hparse hmem, hne, hmem]
      · simp [validateUrl_foreign newURL url u s hne hparse hmem, hne, hmem]

/-- `validateUrl` touches nothing but the class list of the URL field. -/
theorem validateUrl_frame (newURL : String → Option URL) (url : String) (s : Page) :
    ∃ cl, (validateUrl newURL url s).2 = { s with urlClassList := cl } := by
  by_cases hne : url = ""
  · subst hne; exact ⟨s.urlClassList, by simp [validateUrl_empty]⟩
  · cases hparse : newURL url with
    | none => exact ⟨_, by rw [validateUrl_malformed newURL url s hne hparse]⟩
    | some u =>
      by_cases hmem : normalizeDomain u.hostname ∈ allowedDomains
      · exact ⟨_, by rw [validateUrl_allowed newURL url u s hne hparse hmem]⟩
      · exact ⟨_, by rw [validateUrl_foreign newURL url u s hne hparse hmem]⟩

/-! ## The URL field -/

/-- A host name that reads, once its letters are lower-cased, as one of the
four demo hosts or as `www.` followed by one of them is normalised to a member
of `allowedDomains`. -/
theorem normalizeDomain_allowed (hostname name : String)
    (hname : name ∈
      ["quotes.toscrape.com", "books.toscrape.com", "scrapethissite.com", "httpbin.org"])
    (hhost : hostname.data.map Char.toLower = name.data ∨
      hostname.data.map Char.toLower = "www.".data ++ name.data) :
    normalizeDomain hostname ∈ allowedDomains := by
  have hcases : name = "quotes.toscrape.com" ∨ name = "books.toscrape.com" ∨
      name = "scrapethissite.com" ∨ name = "httpbin.org" := by
    simpa using hname
  unfold normalizeDomain toLowerCase startsWith substring
  rcases hcases with h | h | h | h <;> subst h <;> rcases hhost with h2 | h2 <;>
    simp only [h2] <;> decide

/-- C1: when the platform parser rejects the empty string (as the URL
constructor does), every input that parses to a URL whose host name reads, in
any letter case, as quotes.toscrape.com, books.toscrape.com, scrapethissite.com
or httpbin.org, with or without a leading www., makes validateUrl return true
and leaves the field with is-valid present and is-invalid absent, whatever the
rest of the input and whatever the class list was before. -/
theorem C1_allowed_host_is_valid (newURL : String → Option URL) (hempty : newURL "" = none)
    (url : String) (u : URL) (s : Page) (hparse : newURL url = some u) (name : String)
    (hname : name ∈
      ["quotes.toscrape.com", "books.toscrape.com", "scrapethissite.com", "httpbin.org"])
    (hhost : u.hostname.data.map Char.toLower = name.data ∨
      u.hostname.data.map Char.toLower = "www.".data ++ name.data) :
    (validateUrl newURL url s).1 = true ∧
    "is-valid" ∈ (validateUrl newURL url s).2.urlClassList ∧
    "is-invalid" ∉ (validateUrl newURL url s).2.urlClassList := by
  have hne : url ≠ "" := by
    intro h
    rw [h, hempty] at hparse
    exact Option.noConfusion hparse
  rw [validateUrl_allowed newURL url u s hne hparse
    (normalizeDomain_allowed u.hostname name hname hhost)]
  exact ⟨rfl, marked_valid s.urlClassList⟩

theorem C1_allowed_host_is_valid_witness :
    ((validateUrl sampleURL "https://www.quotes.toscrape.com/page/2" markedInvalidPage).1 = true ∧
      "is-valid" ∈
        (validateUrl sampleURL "https://www.quotes.toscrape.com/page/2"
          markedInvalidPage).2.urlClassList ∧
      "is-invalid" ∉
        (validateUrl sampleURL "https://www.quotes.toscrape.com/page/2"
          markedInvalidPage).2.urlClassList) ∧
    ((validateUrl sampleURL "foo://WWW.HttpBin.ORG/x?y=1" markedInvalidPage).1 = true ∧
      "is-valid" ∈
        (validateUrl sampleURL "foo://WWW.HttpBin.ORG/x?y=1" markedInvalidPage).2.urlClassList ∧
      "is-invalid" ∉
        (validateUrl sampleURL "foo://WWW.HttpBin.ORG/x?y=1" markedInvalidPage).2.urlClassList) :=
  ⟨C1_allowed_host_is_valid sampleURL (by decide) "https://www.quotes.toscrape.com/page/2"
      ⟨"www.quotes.toscrape.com"⟩ markedInvalidPage (by decide) "quotes.toscrape.com"
      (by decide) (Or.inr (by decide)),
    C1_allowed_host_is_valid sampleURL (by decide) "foo://WWW.HttpBin.ORG/x?y=1"
      ⟨"WWW.HttpBin.ORG"⟩ markedInvalidPage (by decide) "httpbin.org"
      (by decide) (Or.inr (by decide))⟩

/-- C2, counterexample: the empty string is malformed (it does not parse), yet
validateUrl leaves a field that was marked valid with is-valid present and
is-invalid absent. -/
theorem C2_empty_input_not_marked_invalid :
    sampleURL "" = none ∧
    (validateUrl sampleURL "" markedValidPage).1 = false ∧
    "is-valid" ∈ (validateUrl sampleURL "" markedValidPage).2.urlClassList ∧
    "is-invalid" ∉ (validateUrl sampleURL "" markedValidPage).2.urlClassList := by
  decide

/-- C2, amended: for every non-empty input that does not parse, and every
non-empty input that parses to a URL whose normalised host name is not in the
allow-list, validateUrl returns false and leaves the field with is-invalid
present and is-valid absent. -/
theorem C2_rejected_is_invalid (newURL : String → Option URL) (url : String) (s : Page)
    (hne : url ≠ "")
    (hbad : newURL url = none ∨
      ∃ u, newURL url = some u ∧ normalizeDomain u.hostname ∉ allowedDomains) :
    (validateUrl newURL url s).1 = false ∧
    "is-invalid" ∈ (validateUrl newURL url s).2.urlClassList ∧
    "is-valid" ∉ (validateUrl newURL url s).2.urlClassList := by
  rcases hbad with hparse | ⟨u, hparse, hmem⟩
  · rw [validateUrl_malformed newURL url s hne hparse]
    exact ⟨rfl, marked_invalid s.urlClassList⟩
  · rw [validateUrl_foreign newURL url u s hne hparse hmem]
    exact ⟨rfl, marked_invalid s.urlClassList⟩

theorem C2_rejected_is_invalid_witness :
    (validateUrl sampleURL "https://evil.com/quotes.toscrape.com" markedValidPage).1 = false ∧
    "is-invalid" ∈
      (validateUrl sampleURL "https://evil.com/quotes.toscrape.com" markedValidPage).2.urlClassList ∧
    "is-valid" ∉
      (validateUrl sampleURL "https://evil.com/quotes.toscrape.com" markedValidPage).2.urlClassList :=
  C2_rejected_is_invalid sampleURL "https://evil.com/quotes.toscrape.com" markedValidPage
    (by decide) (Or.inr ⟨⟨"evil.com"⟩, by decide, by decide⟩)

/-- C3, the code at the failing input: validateUrl with the empty string returns
false and leaves the page as it was, so a field marked invalid before stays
marked invalid. -/
theorem C3_empty_input_keeps_markers :
    (∀ (newURL : String → Option URL) (s : Page), validateUrl newURL "" s = (false, s)) ∧
    "is-invalid" ∈ (validateUrl sampleURL "" markedInvalidPage).2.urlClassList :=
  ⟨validateUrl_empty, by decide⟩

/-- C10: after validateUrl ran on a non-empty input, whatever the class list
was, the field carries exactly one of is-valid and is-invalid, is-valid exactly
when validateUrl returned true, and never both. -/
theorem C10_exactly_one_marker (newURL : String → Option URL) (url : String) (s : Page)
    (hne : url ≠ "") :
    (("is-valid" ∈ (validateUrl newURL url s).2.urlClassList ∧
        "is-invalid" ∉ (validateUrl newURL url s).2.urlClassList) ∨
      ("is-invalid" ∈ (validateUrl newURL url s).2.urlClassList ∧
        "is-valid" ∉ (validateUrl newURL url s).2.urlClassList)) ∧
    ("is-valid" ∈ (validateUrl newURL url s).2.urlClassList ↔
      (validateUrl newURL url s).1 = true) ∧
    ¬ ("is-valid" ∈ (validateUrl newURL url s).2.urlClassList ∧
        "is-invalid" ∈ (validateUrl newURL url s).2.urlClassList) := by
  have key : ((validateUrl newURL url s).1 = true ∧
        "is-valid" ∈ (validateUrl newURL url s).2.urlClassList ∧
        "is-invalid" ∉ (validateUrl newURL url s).2.urlClassList) ∨
      ((validateUrl newURL url s).1 = false ∧
        "is-invalid" ∈ (validateUrl newURL url s).2.urlClassList ∧
        "is-valid" ∉ (validateUrl newURL url s).2.urlClassList) := by
    cases hparse : newURL url with
    | none =>
      rw [validateUrl_malformed newURL url s hne hparse]
      exact Or.inr ⟨rfl, marked_invalid s.urlClassList⟩
    | some u =>
      by_cases hmem : normalizeDomain u.hostname ∈ allowedDomains
      · rw [validateUrl_allowed newURL url u s hne hparse hmem]
        exact Or.inl ⟨rfl, marked_valid s.urlClassList⟩
      · rw [validateUrl_foreign newURL url u s hne hparse hmem]
        exact Or.inr ⟨rfl, marked_invalid s.urlClassList⟩
  rcases key with ⟨h1, h2, h3⟩ | ⟨h1, h2, h3⟩
  · exact ⟨Or.inl ⟨h2, h3⟩, ⟨fun _ => h1, fun _ => h2⟩, fun h => h3 h.2⟩
  · refine ⟨Or.inr ⟨h2, h3⟩, ⟨fun h => absurd h h3, fun h => ?_⟩, fun h => h3 h.1⟩
    rw [h1] at h
    exact Bool.noConfusion h

theorem C10_exactly_one_marker_witness :
    (("is-valid" ∈ (validateUrl sampleURL "not a url" markedValidPage).2.urlClassList ∧
        "is-invalid" ∉ (validateUrl sampleURL "not a url" markedValidPage).2.urlClassList) ∨
      ("is-invalid" ∈ (validateUrl sampleURL "not a url" markedValidPage).2.urlClassList ∧
        "is-valid" ∉ (validateUrl sampleURL "not a url" markedValidPage).2.urlClassList)) ∧
    ("is-valid" ∈ (validateUrl sampleURL "not a url" markedValidPage).2.urlClassList ↔
      (validateUrl sampleURL "not a url" markedValidPage).1 = true) ∧
    ¬ ("is-valid" ∈ (validateUrl sampleURL "not a url" markedValidPage).2.urlClassList ∧
        "is-invalid" ∈ (validateUrl sampleURL "not a url" markedValidPage).2.urlClassList) :=
  C10_exactly_one_marker sampleURL "not a url" markedValidPage (by decide)

/-! ## Containers -/

theorem firstMt3_lt (cs : List Container) (k : Nat) (h : firstMt3 cs = some k) :
    k < cs.length := by
  induction cs generalizing k with
  | nil => simp [firstMt3] at h
  | cons c cs ih =>
    unfold firstMt3 at h
    split at h
    · cases h; simp
    · cases hf : firstMt3 cs with
      | none => simp [hf] at h
      | some j =>
        simp [hf] at h
        subst h
        simpa using ih j hf

theorem alertContainer_lt (s : Page) (k : Nat) (h : alertContainer s = some k) :
    k < s.containers.length := by
  unfold alertContainer at h
  cases hf : firstMt3 s.containers with
  | some j =>
    simp [hf] at h
    subst h
    exact firstMt3_lt _ _ hf
  | none =>
    simp [hf] at h
    obtain ⟨hne, hk⟩ := h
    subst hk
    exact List.length_pos.mpr hne

theorem filter_flatten_prependChild (p : Node → Bool) (n : Node) (cs : List Container) (k : Nat)
    (hk : k < cs.length) :
    ((((prependChild n k cs).map (fun c => c.children)).flatten).filter p).length =
      (((cs.map (fun c => c.children)).flatten).filter p).length + (if p n then 1 else 0) := by
  induction cs generalizing k with
  | nil => simp at hk
  | cons c cs ih =>
    cases k with
    | zero =>
      by_cases hp : p n
      · simp [prependChild, List.filter_cons, hp]
      · simp [prependChild, List.filter_cons, hp]
    | succ k =>
      have hk2 : k < cs.length := by simpa using hk
      have := ih k hk2
      simp only [prependChild, List.map_cons, List.flatten_cons, List.filter_append,
        List.length_append] at this ⊢
      omega

theorem length_flatten_prependChild (n : Node) (cs : List Container) (k : Nat)
    (hk : k < cs.length) :
    (((prependChild n k cs).map (fun c => c.children)).flatten).length =
      ((cs.map (fun c => c.children)).flatten).length + 1 := by
  have h := filter_flatten_prependChild (fun _ => true) n cs k hk
  rw [List.filter_true, List.filter_true] at h
  exact h

theorem alertDiv_danger_className (id : Nat) (message : String) :
    (alertDiv id message "danger").className = "alert alert-danger alert-dismissible fade show" :=
  rfl

theorem get?_prependChild (n : Node) (cs : List Container) (k : Nat) (c : Container)
    (h : cs.get? k = some c) :
    (prependChild n k cs).get? k = some { c with children := n :: c.children } := by
  induction cs generalizing k with
  | nil => simp at h
  | cons d cs ih =>
    cases k with
    | zero =>
      simp at h
      subst h
      simp [prependChild]
    | succ k =>
      simp at h
      simpa [prependChild] using ih k (by simpa using h)

theorem childrenOf_showAlert (message type : String) (s : Page) (k : Nat)
    (h : alertContainer s = some k) :
    childrenOf k (showAlert message type s) = alertDiv s.nextId message type :: childrenOf k s := by
  have hk := alertContainer_lt s k h
  have hget : s.containers.get? k = some (s.containers.get ⟨k, hk⟩) := List.get?_eq_get hk
  simp only [showAlert, h, childrenOf]
  rw [get?_prependChild _ _ _ _ hget, hget]

theorem alertContainer_congr (s t : Page) (h : t.containers = s.containers) :
    alertContainer t = alertContainer s := by
  simp [alertContainer, h]

/-! ## Submitting the form -/

/-- C4, counterexample: on a page that has the form but no container element,
submitting a URL that fails validation cancels the submission and produces no
notification at all. -/
theorem C4_no_container_no_notification :
    (validateUrl sampleURL noContainerPage.urlValue noContainerPage).1 = false ∧
    (onSubmit sampleURL noContainerPage).1 = true ∧
    errorNotifications (onSubmit sampleURL noContainerPage).2 = [] ∧
    nodeCount (onSubmit sampleURL noContainerPage).2 = nodeCount noContainerPage := by
  decide

/-- C4, amended: when the submit listener runs with a field value that fails
validation it calls preventDefault and leaves the submit button's disabled
flag, its label and the loading modal as they were; if the page has a
container element (the first .container.mt-3, else the first .container) it
puts exactly one error notification there, as the first child, and if the page
has none it produces no notification. -/
theorem C4_invalid_submit (newURL : String → Option URL) (s : Page)
    (hbad : (validateUrl newURL s.urlValue s).1 = false) :
    (onSubmit newURL s).1 = true ∧
    (onSubmit newURL s).2.submitDisabled = s.submitDisabled ∧
    (onSubmit newURL s).2.submitInnerHTML = s.submitInnerHTML ∧
    (onSubmit newURL s).2.loadingModalInstance = s.loadingModalInstance ∧
    (∀ k, alertContainer s = some k →
      childrenOf k (onSubmit newURL s).2 =
        alertDiv s.nextId "Please enter a valid URL from one of our supported demo sites."
          "danger" :: childrenOf k s ∧
      (errorNotifications (onSubmit newURL s).2).length = (errorNotifications s).length + 1 ∧
      nodeCount (onSubmit newURL s).2 = nodeCount s + 1) ∧
    (alertContainer s = none → (onSubmit newURL s).2.containers = s.containers) := by
  obtain ⟨cl, hcl⟩ := validateUrl_frame newURL s.urlValue s
  have hsub : onSubmit newURL s =
      (true, showError "Please enter a valid URL from one of our supported demo sites."
        { s with urlClassList := cl }) := by
    simp [onSubmit, hbad, hcl]
  rw [hsub]
  have hac : alertContainer { s with urlClassList := cl } = alertContainer s :=
    alertContainer_congr _ _ rfl
  refine ⟨rfl, ?_, ?_, ?_, ?_, ?_⟩
  · simp only [showError, showAlert]; split <;> rfl
  · simp only [showError, showAlert]; split <;> rfl
  · simp only [showError, showAlert]; split <;> rfl
  · intro k hk
    have hk2 := alertContainer_lt s k hk
    refine ⟨?_, ?_, ?_⟩
    · have := childrenOf_showAlert
        "Please enter a valid URL from one of our supported demo sites." "danger"
        { s with urlClassList := cl } k (hac.trans hk)
      simpa [showError, childrenOf] using this
    · simp only [showError, showAlert, hac, hk, errorNotifications]
      rw [filter_flatten_prependChild _ _ _ _ hk2]
      simp [alertDiv_danger_className]
    · simp only [showError, showAlert, hac, hk, nodeCount]
      exact length_flatten_prependChild _ _ _ hk2
  · intro hnone
    simp [showError, showAlert, hac, hnone]

theorem C4_invalid_submit_witness :
    (onSubmit sampleURL foreignUrlPage).1 = true ∧
    (onSubmit sampleURL foreignUrlPage).2.submitDisabled = foreignUrlPage.submitDisabled ∧
    (onSubmit sampleURL foreignUrlPage).2.submitInnerHTML = foreignUrlPage.submitInnerHTML ∧
    (onSubmit sampleURL foreignUrlPage).2.loadingModalInstance =
      foreignUrlPage.loadingModalInstance ∧
    (∀ k, alertContainer foreignUrlPage = some k →
      childrenOf k (onSubmit sampleURL foreignUrlPage).2 =
        alertDiv foreignUrlPage.nextId
          "Please enter a valid URL from one of our supported demo sites."
          "danger" :: childrenOf k foreignUrlPage ∧
      (errorNotifications (onSubmit sampleURL foreignUrlPage).2).length =
        (errorNotifications foreignUrlPage).length + 1 ∧
      nodeCount (onSubmit sampleURL foreignUrlPage).2 = nodeCount foreignUrlPage + 1) ∧
    (alertContainer foreignUrlPage = none →
      (onSubmit sampleURL foreignUrlPage).2.containers = foreignUrlPage.containers) :=
  C4_invalid_submit sampleURL foreignUrlPage (by decide)

/-- C5: when the submit listener runs with a field value that passes validation
it does not call preventDefault, sets the submit button's disabled flag, puts
the Processing... busy indicator in its label, forwards one show to the loading
modal if there is one, and creates no notification and no timer. -/
theorem C5_valid_submit (newURL : String → Option URL) (s : Page)
    (hok : (validateUrl newURL s.urlValue s).1 = true) :
    (onSubmit newURL s).1 = false ∧
    (onSubmit newURL s).2.submitDisabled = true ∧
    (onSubmit newURL s).2.submitInnerHTML =
      "<i class=\"fas fa-spinner fa-spin me-2\"></i>Processing..." ∧
    (onSubmit newURL s).2.containers = s.containers ∧
    (onSubmit newURL s).2.timers = s.timers ∧
    errorNotifications (onSubmit newURL s).2 = errorNotifications s ∧
    (onSubmit newURL s).2.loadingModalInstance = (showLoadingModal s).loadingModalInstance := by
  obtain ⟨cl, hcl⟩ := validateUrl_frame newURL s.urlValue s
  have hsub : onSubmit newURL s =
      (false, { showLoadingModal { s with urlClassList := cl } with
        submitDisabled := true
        submitInnerHTML := "<i class=\"fas fa-spinner fa-spin me-2\"></i>Processing..." }) := by
    simp [onSubmit, hok, hcl]
  rw [hsub]
  refine ⟨rfl, rfl, rfl, ?_, ?_, ?_, ?_⟩
  · simp only [showLoadingModal]; split <;> rfl
  · simp only [showLoadingModal]; split <;> rfl
  · simp only [showLoadingModal, errorNotifications]; split <;> rfl
  · simp only [showLoadingModal]; split <;> rfl

theorem C5_valid_submit_witness :
    (onSubmit sampleURL allowedUrlPage).1 = false ∧
    (onSubmit sampleURL allowedUrlPage).2.submitDisabled = true ∧
    (onSubmit sampleURL allowedUrlPage).2.submitInnerHTML =
      "<i class=\"fas fa-spinner fa-spin me-2\"></i>Processing..." ∧
    (onSubmit sampleURL allowedUrlPage).2.containers = allowedUrlPage.containers ∧
    (onSubmit sampleURL allowedUrlPage).2.timers = allowedUrlPage.timers ∧
    errorNotifications (onSubmit sampleURL allowedUrlPage).2 = errorNotifications allowedUrlPage ∧
    (onSubmit sampleURL allowedUrlPage).2.loadingModalInstance =
      (showLoadingModal allowedUrlPage).loadingModalInstance :=
  C5_valid_submit sampleURL allowedUrlPage (by decide)

/-! ## Loading modal -/

/-- C9: when the page has no loadingModal element setupLoadingModal stores
nothing, and with no stored instance showLoadingModal and hideLoadingModal leave
the state unchanged; with a stored instance each call appends exactly one show
(respectively hide) to the calls of that instance and changes nothing else. -/
theorem C9_loading_modal (s : Page) (m : Modal) :
    setupLoadingModal false s = s ∧
    showLoadingModal { s with loadingModalInstance := none } =
      { s with loadingModalInstance := none } ∧
    hideLoadingModal { s with loadingModalInstance := none } =
      { s with loadingModalInstance := none } ∧
    showLoadingModal { s with loadingModalInstance := some m } =
      { s with loadingModalInstance := some { m with calls := m.calls ++ [ModalCall.show] } } ∧
    hideLoadingModal { s with loadingModalInstance := some m } =
      { s with loadingModalInstance := some { m with calls := m.calls ++ [ModalCall.hide] } } ∧
    (setupLoadingModal true s).loadingModalInstance =
      some { backdrop := "static", keyboard := false, calls := [] } :=
  ⟨rfl, rfl, rfl, rfl, rfl, rfl⟩

/-! ## Smooth scrolling -/

/-- C8, the code at the failing input: the listener always calls preventDefault,
scrolls smoothly to the start of an element the selector finds and does nothing
more when the selector finds none; for the anchor with href # the selector
lookup throws and the listener ends with that SyntaxError. -/
theorem C8_bare_hash_throws :
    (∀ (qs : String → Except String (Option Nat)) (href : String),
      (anchorOnClick qs href).defaultPrevented = true) ∧
    anchorOnClick sampleQuerySelector "#results" =
      { defaultPrevented := true
        scrolls := [{ target := 7, behavior := "smooth", block := "start" }]
        thrown := none } ∧
    anchorOnClick sampleQuerySelector "#missing" =
      { defaultPrevented := true, scrolls := [], thrown := none } ∧
    anchorOnClick sampleQuerySelector "#" =
      { defaultPrevented := true, scrolls := [], thrown := some "SyntaxError" } := by
  refine ⟨?_, by decide, by decide, by decide⟩
  intro qs href
  unfold anchorOnClick
  split <;> rfl

/-! ## Attached nodes -/

theorem attached_iff (id : Nat) (s : Page) :
    attached id s = true ↔ ∃ c ∈ s.containers, ∃ n ∈ c.children, n.id = id := by
  simp [attached]

theorem attached_removeNode (id j : Nat) (s : Page) :
    attached id (removeNode j s) = true ↔ attached id s = true ∧ id ≠ j := by
  simp only [attached_iff, removeNode]
  constructor
  · rintro ⟨c, hc, n, hn, rfl⟩
    simp only [List.mem_map] at hc
    obtain ⟨d, hd, rfl⟩ := hc
    simp only [List.mem_filter, bne_iff_ne, ne_eq] at hn
    exact ⟨⟨d, hd, n, hn.1, rfl⟩, hn.2⟩
  · rintro ⟨⟨c, hc, n, hn, rfl⟩, hne⟩
    refine ⟨_, List.mem_map.mpr ⟨c, hc, rfl⟩, n, ?_, rfl⟩
    simp only [List.mem_filter, bne_iff_ne, ne_eq]
    exact ⟨hn, hne⟩

theorem removeNode_of_not_attached (id : Nat) (s : Page) (h : attached id s = false) :
    removeNode id s = s := by
  have hall : ∀ c ∈ s.containers, ∀ n ∈ c.children, n.id ≠ id := by
    intro c hc n hn he
    have : attached id s = true := (attached_iff id s).mpr ⟨c, hc, n, hn, he⟩
    rw [h] at this
    exact Bool.noConfusion this
  have hmap : s.containers.map
      (fun c => ({ c with children := c.children.filter (fun n => n.id != id) } : Container)) =
      s.containers := by
    conv_rhs => rw [← List.map_id s.containers]
    apply List.map_congr_left
    intro c hc
    have : c.children.filter (fun n => n.id != id) = c.children := by
      rw [List.filter_eq_self]
      intro n hn
      simpa using hall c hc n hn
    simp [this]
  simp only [removeNode, hmap]

theorem mem_prependChild (n : Node) (k : Nat) (cs : List Container) (c : Container)
    (h : c ∈ prependChild n k cs) :
    c ∈ cs ∨ ∃ d ∈ cs, c = { d with children := n :: d.children } := by
  induction cs generalizing k with
  | nil => simp [prependChild] at h
  | cons d cs ih =>
    cases k with
    | zero =>
      simp only [prependChild, List.mem_cons] at h
      rcases h with h | h
      · exact Or.inr ⟨d, List.mem_cons_self _ _, h⟩
      · exact Or.inl (List.mem_cons_of_mem _ h)
    | succ k =>
      simp only [prependChild, List.mem_cons] at h
      rcases h with h | h
      · exact Or.inl (h ▸ List.mem_cons_self _ _)
      · rcases ih k h with h2 | ⟨e, he, h2⟩
        · exact Or.inl (List.mem_cons_of_mem _ h2)
        · exact Or.inr ⟨e, List.mem_cons_of_mem _ he, h2⟩

theorem attached_showAlert (id : Nat) (message type : String) (s : Page) (hid : id ≠ s.nextId)
    (h : attached id (showAlert message type s) = true) : attached id s = true := by
  unfold showAlert at h
  split at h
  · exact h
  · rw [attached_iff] at h ⊢
    obtain ⟨c, hc, n, hn, rfl⟩ := h
    rcases mem_prependChild _ _ _ _ hc with h1 | ⟨d, hd, rfl⟩
    · exact ⟨c, h1, n, hn, rfl⟩
    · simp only [List.mem_cons] at hn
      rcases hn with hn | hn
      · subst hn
        exact absurd rfl hid
      · exact ⟨d, hd, n, hn, rfl⟩

theorem showAlert_now (message type : String) (s : Page) :
    (showAlert message type s).now = s.now := by
  unfold showAlert; split <;> rfl

theorem showAlert_copyButtons (message type : String) (s : Page) :
    (showAlert message type s).copyButtons = s.copyButtons := by
  unfold showAlert; split <;> rfl

theorem showAlert_nextId (message type : String) (s : Page) :
    s.nextId ≤ (showAlert message type s).nextId := by
  unfold showAlert; split <;> simp

theorem showAlert_timers (message type : String) (s : Page) :
    (showAlert message type s).timers = s.timers ∨
    (showAlert message type s).timers =
      s.timers ++ [{ due := s.now + 5000, callback := Callback.removeAlert s.nextId }] := by
  unfold showAlert; split
  · exact Or.inl rfl
  · exact Or.inr rfl

/-! ## Callbacks -/

theorem runCallback_now (cb : Callback) (s : Page) : (runCallback cb s).now = s.now := by
  cases cb with
  | revertCopyIcon i => rfl
  | removeAlert id => simp only [runCallback]; split <;> rfl

theorem runCallback_timers (cb : Callback) (s : Page) :
    (runCallback cb s).timers = s.timers := by
  cases cb with
  | revertCopyIcon i => rfl
  | removeAlert id => simp only [runCallback]; split <;> rfl

theorem runCallback_nextId (cb : Callback) (s : Page) :
    (runCallback cb s).nextId = s.nextId := by
  cases cb with
  | revertCopyIcon i => rfl
  | removeAlert id => simp only [runCallback]; split <;> rfl

theorem attached_runCallback (id : Nat) (cb : Callback) (s : Page)
    (h : attached id (runCallback cb s) = true) : attached id s = true := by
  cases cb with
  | revertCopyIcon i => exact h
  | removeAlert j =>
    simp only [runCallback] at h
    split at h
    · exact ((attached_removeNode id j s).mp h).1
    · exact h

theorem not_attached_removeAlert (id : Nat) (s : Page) :
    attached id (runCallback (Callback.removeAlert id) s) = false := by
  simp only [runCallback]
  split
  · cases h : attached id (removeNode id s) with
    | false => rfl
    | true => exact absurd rfl ((attached_removeNode id id s).mp h).2
  · simpa using ‹¬ attached id s = true›

theorem foldl_runCallback_now (ts : List Timer) (s : Page) :
    (ts.foldl (fun acc x => runCallback x.callback acc) s).now = s.now := by
  induction ts generalizing s with
  | nil => rfl
  | cons t ts ih => simp only [List.foldl_cons, ih, runCallback_now]

theorem foldl_runCallback_timers (ts : List Timer) (s : Page) :
    (ts.foldl (fun acc x => runCallback x.callback acc) s).timers = s.timers := by
  induction ts generalizing s with
  | nil => rfl
  | cons t ts ih => simp only [List.foldl_cons, ih, runCallback_timers]

theorem foldl_runCallback_nextId (ts : List Timer) (s : Page) :
    (ts.foldl (fun acc x => runCallback x.callback acc) s).nextId = s.nextId := by
  induction ts generalizing s with
  | nil => rfl
  | cons t ts ih => simp only [List.foldl_cons, ih, runCallback_nextId]

theorem attached_foldl_runCallback (id : Nat) (ts : List Timer) (s : Page)
    (h : attached id (ts.foldl (fun acc x => runCallback x.callback acc) s) = true) :
    attached id s = true := by
  induction ts generalizing s with
  | nil => exact h
  | cons t ts ih =>
    simp only [List.foldl_cons] at h
    exact attached_runCallback id _ s (ih _ h)

theorem not_attached_foldl_runCallback (id : Nat) (ts : List Timer) (s : Page)
    (hmem : ∃ t ∈ ts, t.callback = Callback.removeAlert id) :
    attached id (ts.foldl (fun acc x => runCallback x.callback acc) s) = false := by
  induction ts generalizing s with
  | nil => simp at hmem
  | cons t ts ih =>
    simp only [List.foldl_cons]
    by_cases ht : t.callback = Callback.removeAlert id
    · cases h : attached id (ts.foldl (fun acc x => runCallback x.callback acc)
          (runCallback t.callback s)) with
      | false => rfl
      | true =>
        have := attached_foldl_runCallback id ts _ h
        rw [ht, not_attached_removeAlert] at this
        exact Bool.noConfusion this
    · obtain ⟨x, hx, hxc⟩ := hmem
      simp only [List.mem_cons] at hx
      rcases hx with hx | hx
      · subst hx; exact absurd hxc ht
      · exact ih _ ⟨x, hx, hxc⟩

/-! ## The clock -/

theorem mem_fired (t : Nat) (ts : List Timer) (x : Timer) :
    x ∈ List.insertionSort (fun a b => a.due ≤ b.due) (ts.filter (fun x => x.due ≤ t)) ↔
      x ∈ ts ∧ x.due ≤ t := by
  rw [(List.perm_insertionSort _ _).mem_iff]
  simp

theorem advance_now (ms : Nat) (s : Page) : (advance ms s).now = s.now + ms := by
  simp only [advance, foldl_runCallback_now]

theorem advance_nextId (ms : Nat) (s : Page) : (advance ms s).nextId = s.nextId := by
  simp only [advance, foldl_runCallback_nextId]

theorem mem_advance_timers (ms : Nat) (s : Page) (x : Timer) :
    x ∈ (advance ms s).timers ↔ x ∈ s.timers ∧ s.now + ms < x.due := by
  simp only [advance, foldl_runCallback_timers]
  simp

theorem attached_advance (id ms : Nat) (s : Page) (h : attached id (advance ms s) = true) :
    attached id s = true := by
  simp only [advance] at h
  have h2 := attached_foldl_runCallback id _ _ h
  exact h2

theorem not_attached_advance (id ms : Nat) (s : Page) (x : Timer) (hx : x ∈ s.timers)
    (hcb : x.callback = Callback.removeAlert id) (hdue : x.due ≤ s.now + ms) :
    attached id (advance ms s) = false := by
  simp only [advance]
  exact not_attached_foldl_runCallback id _ _ ⟨x, (mem_fired _ _ _).mpr ⟨hx, hdue⟩, hcb⟩

/-! ## Handlers that leave clock, buttons and pending timers alone -/

theorem Calm.refl (s : Page) : Calm s s :=
  ⟨rfl, Nat.le_refl _, fun _ _ h => h, fun _ h => h, rfl, fun _ h => Or.inl h⟩

theorem Calm.trans (s t u : Page) (h1 : Calm s t) (h2 : Calm t u) : Calm s u := by
  obtain ⟨a1, b1, c1, d1, e1, f1⟩ := h1
  obtain ⟨a2, b2, c2, d2, e2, f2⟩ := h2
  refine ⟨a2.trans a1, Nat.le_trans b1 b2, ?_, fun x hx => d2 x (d1 x hx), e2.trans e1, ?_⟩
  · intro id hid h
    exact c1 id hid (c2 id (Nat.lt_of_lt_of_le hid b1) h)
  · intro x hx
    rcases f2 x hx with h | ⟨id, hid, h⟩
    · exact f1 x h
    · exact Or.inr ⟨id, Nat.le_trans b1 hid, h⟩

theorem calm_of_eq (s t : Page) (hnow : t.now = s.now) (hid : t.nextId = s.nextId)
    (hc : t.containers = s.containers) (ht : t.timers = s.timers)
    (hb : t.copyButtons = s.copyButtons) : Calm s t := by
  refine ⟨hnow, Nat.le_of_eq hid.symm, ?_, ?_, hb, ?_⟩
  · intro id _ h
    simpa [attached, hc] using h
  · intro x hx; rw [ht]; exact hx
  · intro x hx; rw [ht] at hx; exact Or.inl hx

theorem calm_showAlert (message type : String) (s : Page) : Calm s (showAlert message type s) := by
  refine ⟨showAlert_now _ _ s, showAlert_nextId _ _ s, ?_, ?_, showAlert_copyButtons _ _ s, ?_⟩
  · intro id hid h
    exact attached_showAlert id message type s (Nat.ne_of_lt hid) h
  · intro x hx
    rcases showAlert_timers message type s with h | h <;> rw [h]
    · exact hx
    · exact List.mem_append_left _ hx
  · intro x hx
    rcases showAlert_timers message type s with h | h <;> rw [h] at hx
    · exact Or.inl hx
    · rcases List.mem_append.mp hx with h2 | h2
      · exact Or.inl h2
      · simp only [List.mem_singleton] at h2
        exact Or.inr ⟨s.nextId, Nat.le_refl _, by rw [h2]⟩

theorem calm_validateUrl (newURL : String → Option URL) (url : String) (s : Page) :
    Calm s (validateUrl newURL url s).2 := by
  obtain ⟨cl, hcl⟩ := validateUrl_frame newURL url s
  rw [hcl]
  exact calm_of_eq _ _ rfl rfl rfl rfl rfl

theorem calm_showLoadingModal (s : Page) : Calm s (showLoadingModal s) := by
  unfold showLoadingModal
  split
  · exact calm_of_eq _ _ rfl rfl rfl rfl rfl
  · exact Calm.refl s

theorem calm_hideLoadingModal (s : Page) : Calm s (hideLoadingModal s) := by
  unfold hideLoadingModal
  split
  · exact calm_of_eq _ _ rfl rfl rfl rfl rfl
  · exact Calm.refl s

theorem calm_removeNode (id : Nat) (s : Page) : Calm s (removeNode id s) := by
  refine ⟨rfl, Nat.le_refl _, ?_, fun _ h => h, rfl, fun _ h => Or.inl h⟩
  intro j _ h
  exact ((attached_removeNode j id s).mp h).1

theorem calm_onInput (newURL : String → Option URL) (value : String) (s : Page) :
    Calm s (onInput newURL value s) := by
  unfold onInput
  exact Calm.trans _ _ _ (calm_of_eq s { s with urlValue := value } rfl rfl rfl rfl rfl)
    (calm_validateUrl newURL value _)

theorem calm_onSubmit (newURL : String → Option URL) (s : Page) :
    Calm s (onSubmit newURL s).2 := by
  simp only [onSubmit]
  split
  · exact Calm.trans _ _ _ (calm_validateUrl newURL s.urlValue s) (calm_showAlert _ _ _)
  · refine Calm.trans _ _ _ (calm_validateUrl newURL s.urlValue s) ?_
    refine Calm.trans _ _ _ (calm_showLoadingModal _) ?_
    exact calm_of_eq _ _ rfl rfl rfl rfl rfl

theorem calm_copyToClipboard (text : String) (s : Page) : Calm s (copyToClipboard text s) := by
  unfold copyToClipboard
  split
  · exact calm_of_eq _ _ rfl rfl rfl rfl rfl
  · exact Calm.trans _ _ _
      (calm_of_eq s { s with clipboardOps := s.clipboardOps ++ [ClipboardOp.execCopy text] }
        rfl rfl rfl rfl rfl)
      (calm_showAlert _ _ _)

theorem calm_clipboardDone (newURL : String → Option URL) (s : Page) :
    Calm s (step newURL Event.clipboardDone s) := by
  simp only [step]
  split
  · exact Calm.refl s
  · exact Calm.trans _ _ _
      (calm_of_eq s { s with pendingWrites := s.pendingWrites - 1 } rfl rfl rfl rfl rfl)
      (calm_showAlert _ _ _)

/-- Every event but a click on a copy button and the passing of time is calm. -/
theorem calm_step (newURL : String → Option URL) (e : Event) (s : Page)
    (hclick : ∀ i, e ≠ Event.clickCopy i) (hadv : ∀ ms, e ≠ Event.advance ms) :
    Calm s (step newURL e s) := by
  cases e with
  | input v => exact calm_onInput newURL v s
  | submit => exact calm_onSubmit newURL s
  | clickCopy i => exact absurd rfl (hclick i)
  | clipboardDone => exact calm_clipboardDone newURL s
  | dismiss id => exact calm_removeNode id s
  | notify m t => exact calm_showAlert m t s
  | showLoading => exact calm_showLoadingModal s
  | hideLoading => exact calm_hideLoadingModal s
  | advance ms => exact absurd rfl (hadv ms)

/-! ## Notifications over time -/

/-- A click on a copy button keeps the clock, attaches no old node and cancels
no timer. -/
theorem quiet_copyBtnOnclick (i : Nat) (s : Page) :
    (copyBtnOnclick i s).now = s.now ∧ s.nextId ≤ (copyBtnOnclick i s).nextId ∧
    (∀ id, id < s.nextId → attached id (copyBtnOnclick i s) = true → attached id s = true) ∧
    (∀ x ∈ s.timers, x ∈ (copyBtnOnclick i s).timers) := by
  unfold copyBtnOnclick
  split
  · exact ⟨rfl, Nat.le_refl _, fun _ _ h => h, fun _ h => h⟩
  · rename_i b _
    obtain ⟨a1, b1, c1, d1, _, _⟩ := calm_copyToClipboard b.textContent s
    refine ⟨a1, b1, ?_, ?_⟩
    · intro id hid h
      exact c1 id hid h
    · intro x hx
      exact List.mem_append_left _ (d1 x hx)

theorem step_now (newURL : String → Option URL) (e : Event) (s : Page) :
    (step newURL e s).now = s.now + elapsed [e] := by
  cases e with
  | input v => exact (calm_onInput newURL v s).1
  | submit => exact (calm_onSubmit newURL s).1
  | clickCopy i => exact (quiet_copyBtnOnclick i s).1
  | clipboardDone => exact (calm_clipboardDone newURL s).1
  | dismiss id => rfl
  | notify m t => exact (calm_showAlert m t s).1
  | showLoading => exact (calm_showLoadingModal s).1
  | hideLoading => exact (calm_hideLoadingModal s).1
  | advance ms => simpa [step, elapsed] using advance_now ms s

theorem elapsed_cons (e : Event) (evs : List Event) :
    elapsed (e :: evs) = elapsed [e] + elapsed evs := by
  cases e <;> simp [elapsed]

theorem run_now (newURL : String → Option URL) (evs : List Event) (s : Page) :
    (run newURL evs s).now = s.now + elapsed evs := by
  induction evs generalizing s with
  | nil => rfl
  | cons e evs ih =>
    have h := ih (step newURL e s)
    simp only [run, List.foldl_cons] at h ⊢
    rw [h, step_now, elapsed_cons e evs, Nat.add_assoc]

/-- One event keeps the invariant of a notification: it is known to the page,
and while it is attached its removal is pending and not yet due. -/
theorem removal_pending_step (newURL : String → Option URL) (e : Event) (s : Page) (id D : Nat)
    (h1 : id < s.nextId)
    (h2 : attached id s = true →
      ({ due := D, callback := Callback.removeAlert id } : Timer) ∈ s.timers ∧ s.now < D) :
    id < (step newURL e s).nextId ∧
    (attached id (step newURL e s) = true →
      ({ due := D, callback := Callback.removeAlert id } : Timer) ∈ (step newURL e s).timers ∧
      (step newURL e s).now < D) := by
  have quiet : ∀ t : Page, t.now = s.now → s.nextId ≤ t.nextId →
      (∀ j, j < s.nextId → attached j t = true → attached j s = true) →
      (∀ x ∈ s.timers, x ∈ t.timers) →
      id < t.nextId ∧ (attached id t = true →
        ({ due := D, callback := Callback.removeAlert id } : Timer) ∈ t.timers ∧ t.now < D) := by
    intro t a b c d
    refine ⟨Nat.lt_of_lt_of_le h1 b, fun h => ?_⟩
    obtain ⟨hm, hn⟩ := h2 (c id h1 h)
    exact ⟨d _ hm, by rw [a]; exact hn⟩
  have calm : ∀ t : Page, Calm s t →
      id < t.nextId ∧ (attached id t = true →
        ({ due := D, callback := Callback.removeAlert id } : Timer) ∈ t.timers ∧ t.now < D) :=
    fun t h => quiet t h.1 h.2.1 h.2.2.1 h.2.2.2.1
  cases e with
  | input v => exact calm _ (calm_onInput newURL v s)
  | submit => exact calm _ (calm_onSubmit newURL s)
  | clickCopy i =>
    obtain ⟨a, b, c, d⟩ := quiet_copyBtnOnclick i s
    exact quiet _ a b c d
  | clipboardDone => exact calm _ (calm_clipboardDone newURL s)
  | dismiss j => exact calm _ (calm_removeNode j s)
  | notify m t => exact calm _ (calm_showAlert m t s)
  | showLoading => exact calm _ (calm_showLoadingModal s)
  | hideLoading => exact calm _ (calm_hideLoadingModal s)
  | advance ms =>
    simp only [step]
    refine ⟨by rw [advance_nextId]; exact h1, fun h => ?_⟩
    obtain ⟨hm, _⟩ := h2 (attached_advance id ms s h)
    by_cases hd : D ≤ s.now + ms
    · have := not_attached_advance id ms s _ hm rfl hd
      rw [this] at h
      exact Bool.noConfusion h
    · have hlt : s.now + ms < D := Nat.lt_of_not_le hd
      exact ⟨(mem_advance_timers ms s _).mpr ⟨hm, hlt⟩, by rw [advance_now]; exact hlt⟩

theorem removal_pending_run (newURL : String → Option URL) (evs : List Event) (s : Page)
    (id D : Nat) (h1 : id < s.nextId)
    (h2 : attached id s = true →
      ({ due := D, callback := Callback.removeAlert id } : Timer) ∈ s.timers ∧ s.now < D) :
    attached id (run newURL evs s) = true → (run newURL evs s).now < D := by
  induction evs generalizing s with
  | nil => exact fun h => (h2 h).2
  | cons e evs ih =>
    obtain ⟨a, b⟩ := removal_pending_step newURL e s id D h1 h2
    exact ih (step newURL e s) a b

/-! ## Copy buttons -/

theorem get?_setButtonHTML (html : String) (i j : Nat) (bs : List CopyBtn) :
    (setButtonHTML html i bs).get? j =
      if j = i then (bs.get? j).map (fun b => { b with innerHTML := html }) else bs.get? j := by
  induction bs generalizing i j with
  | nil => simp [setButtonHTML]
  | cons b bs ih =>
    cases i with
    | zero =>
      cases j with
      | zero => simp [setButtonHTML]
      | succ j => simp [setButtonHTML]
    | succ i =>
      cases j with
      | zero => simp [setButtonHTML]
      | succ j => simpa [setButtonHTML] using ih i j

theorem buttonHTML_set (html : String) (i j : Nat) (s : Page) (bs : List CopyBtn)
    (h : s.copyButtons = setButtonHTML html j bs) :
    buttonHTML i s =
      if i = j then ((bs.get? i).map (fun b => b.innerHTML)).map (fun _ => html)
      else (bs.get? i).map (fun b => b.innerHTML) := by
  unfold buttonHTML
  rw [h, get?_setButtonHTML]
  split
  · cases bs.get? i <;> rfl
  · rfl

theorem buttonHTML_congr (i : Nat) (s t : Page) (h : t.copyButtons = s.copyButtons) :
    buttonHTML i t = buttonHTML i s := by
  simp [buttonHTML, h]

theorem buttonHTML_runCallback (i : Nat) (cb : Callback) (s : Page) :
    buttonHTML i (runCallback cb s) =
      if cb = Callback.revertCopyIcon i then (buttonHTML i s).map (fun _ => copyIcon)
      else buttonHTML i s := by
  cases cb with
  | revertCopyIcon j =>
    rw [buttonHTML_set copyIcon i j (runCallback (Callback.revertCopyIcon j) s) s.copyButtons rfl]
    by_cases hij : i = j
    · subst hij; simp [buttonHTML]
    · have : ¬ j = i := fun h => hij h.symm
      simp [hij, this, buttonHTML]
  | removeAlert id =>
    simp only [runCallback, reduceCtorEq, if_false]
    split <;> rfl

theorem buttonHTML_foldl_of_not_mem (i : Nat) (ts : List Timer) (s : Page)
    (h : ∀ t ∈ ts, t.callback ≠ Callback.revertCopyIcon i) :
    buttonHTML i (ts.foldl (fun acc x => runCallback x.callback acc) s) = buttonHTML i s := by
  induction ts generalizing s with
  | nil => rfl
  | cons t ts ih =>
    simp only [List.foldl_cons]
    rw [ih _ (fun x hx => h x (List.mem_cons_of_mem _ hx)), buttonHTML_runCallback,
      if_neg (h t (List.mem_cons_self _ _))]

theorem buttonHTML_foldl_copy (i : Nat) (ts : List Timer) (s : Page)
    (h : buttonHTML i s = some copyIcon) :
    buttonHTML i (ts.foldl (fun acc x => runCallback x.callback acc) s) = some copyIcon := by
  induction ts generalizing s with
  | nil => exact h
  | cons t ts ih =>
    simp only [List.foldl_cons]
    apply ih
    rw [buttonHTML_runCallback]
    split <;> simp [h]

theorem buttonHTML_foldl_of_mem (i : Nat) (ts : List Timer) (s : Page)
    (hsome : (buttonHTML i s).isSome = true)
    (h : ∃ t ∈ ts, t.callback = Callback.revertCopyIcon i) :
    buttonHTML i (ts.foldl (fun acc x => runCallback x.callback acc) s) = some copyIcon := by
  induction ts generalizing s with
  | nil => simp at h
  | cons t ts ih =>
    simp only [List.foldl_cons]
    by_cases ht : t.callback = Callback.revertCopyIcon i
    · apply buttonHTML_foldl_copy
      rw [buttonHTML_runCallback, if_pos ht]
      cases hb : buttonHTML i s with
      | none => simp [hb] at hsome
      | some v => rfl
    · obtain ⟨x, hx, hxc⟩ := h
      simp only [List.mem_cons] at hx
      rcases hx with hx | hx
      · subst hx; exact absurd hxc ht
      · apply ih _ _ ⟨x, hx, hxc⟩
        rw [buttonHTML_runCallback, if_neg ht]
        exact hsome

theorem buttonHTML_advance_early (i ms : Nat) (s : Page)
    (h : ∀ x ∈ s.timers, x.callback = Callback.revertCopyIcon i → s.now + ms < x.due) :
    buttonHTML i (advance ms s) = buttonHTML i s := by
  simp only [advance]
  rw [buttonHTML_foldl_of_not_mem]
  · rfl
  · intro t ht hcb
    obtain ⟨hm, hd⟩ := (mem_fired _ _ _).mp ht
    exact absurd hd (Nat.not_le_of_lt (h t hm hcb))

theorem buttonHTML_advance_due (i ms : Nat) (s : Page) (x : Timer)
    (hsome : (buttonHTML i s).isSome = true) (hx : x ∈ s.timers)
    (hcb : x.callback = Callback.revertCopyIcon i) (hdue : x.due ≤ s.now + ms) :
    buttonHTML i (advance ms s) = some copyIcon := by
  simp only [advance]
  exact buttonHTML_foldl_of_mem i _ _ hsome ⟨x, (mem_fired _ _ _).mpr ⟨hx, hdue⟩, hcb⟩

theorem buttonHTML_advance_copy (i ms : Nat) (s : Page) (h : buttonHTML i s = some copyIcon) :
    buttonHTML i (advance ms s) = some copyIcon := by
  simp only [advance]
  exact buttonHTML_foldl_copy i _ _ h

theorem buttonHTML_copyBtnOnclick (i j : Nat) (s : Page) :
    buttonHTML i (copyBtnOnclick j s) =
      if i = j then (buttonHTML i s).map (fun _ => checkIcon) else buttonHTML i s := by
  unfold copyBtnOnclick
  split
  · rename_i hnone
    split
    · rename_i hij
      subst hij
      unfold buttonHTML
      rw [hnone]
      rfl
    · rfl
  · rename_i b _
    have hc := (calm_copyToClipboard b.textContent s).2.2.2.2.1
    rw [buttonHTML_set checkIcon i j _ (copyToClipboard b.textContent s).copyButtons rfl, hc]
    rfl

theorem mem_timers_copyBtnOnclick (j : Nat) (s : Page) (x : Timer)
    (hx : x ∈ (copyBtnOnclick j s).timers) :
    x ∈ s.timers ∨ (∃ id, s.nextId ≤ id ∧ x.callback = Callback.removeAlert id) ∨
      x = { due := s.now + 2000, callback := Callback.revertCopyIcon j } := by
  unfold copyBtnOnclick at hx
  split at hx
  · exact Or.inl hx
  · rename_i b _
    obtain ⟨hnow, _, _, _, _, hnew⟩ := calm_copyToClipboard b.textContent s
    rcases List.mem_append.mp hx with h | h
    · rcases hnew x h with h2 | h2
      · exact Or.inl h2
      · exact Or.inr (Or.inl h2)
    · simp only [List.mem_singleton] at h
      rw [hnow] at h
      exact Or.inr (Or.inr h)

theorem copyBtnOnclick_timers (i : Nat) (s : Page) (b : CopyBtn)
    (hb : s.copyButtons.get? i = some b) :
    ({ due := s.now + 2000, callback := Callback.revertCopyIcon i } : Timer) ∈
      (copyBtnOnclick i s).timers := by
  have hnow := (calm_copyToClipboard b.textContent s).1
  simp only [copyBtnOnclick, hb, hnow]
  simp

theorem copyBtnOnclick_clipboardOps (i : Nat) (s : Page) (b : CopyBtn)
    (hb : s.copyButtons.get? i = some b) :
    (copyBtnOnclick i s).clipboardOps = s.clipboardOps ++
      [if s.hasClipboard then ClipboardOp.writeText b.textContent
        else ClipboardOp.execCopy b.textContent] := by
  simp only [copyBtnOnclick, hb, copyToClipboard]
  split
  · rfl
  · simp only [showSuccess, showAlert]
    split <;> simp_all

theorem isSome_buttonHTML_advance (i ms : Nat) (s : Page) :
    (buttonHTML i (advance ms s)).isSome = (buttonHTML i s).isSome := by
  have fold : ∀ (ts : List Timer) (u : Page),
      (buttonHTML i (ts.foldl (fun acc x => runCallback x.callback acc) u)).isSome =
        (buttonHTML i u).isSome := by
    intro ts
    induction ts with
    | nil => intro u; rfl
    | cons t ts ih =>
      intro u
      simp only [List.foldl_cons]
      rw [ih, buttonHTML_runCallback]
      split <;> simp
  simp only [advance]
  rw [fold]
  rfl

/-- One event keeps the check icon of a button while its revert is not due:
the button shows the check icon and every pending revert of it is due at
`t0 + 2000` or later. -/
theorem check_window_step (newURL : String → Option URL) (e : Event) (s : Page) (i t0 : Nat)
    (h0 : t0 ≤ s.now)
    (h : s.now < t0 + 2000 → buttonHTML i s = some checkIcon ∧
      ∀ x ∈ s.timers, x.callback = Callback.revertCopyIcon i → t0 + 2000 ≤ x.due) :
    t0 ≤ (step newURL e s).now ∧
    ((step newURL e s).now < t0 + 2000 → buttonHTML i (step newURL e s) = some checkIcon ∧
      ∀ x ∈ (step newURL e s).timers, x.callback = Callback.revertCopyIcon i →
        t0 + 2000 ≤ x.due) := by
  have calm : ∀ t : Page, Calm s t →
      t0 ≤ t.now ∧ (t.now < t0 + 2000 → buttonHTML i t = some checkIcon ∧
        ∀ x ∈ t.timers, x.callback = Callback.revertCopyIcon i → t0 + 2000 ≤ x.due) := by
    intro t ⟨a, _, _, _, hb, hnew⟩
    refine ⟨by rw [a]; exact h0, fun hlt => ?_⟩
    rw [a] at hlt
    obtain ⟨hc, ht⟩ := h hlt
    refine ⟨by rw [buttonHTML_congr i s t hb]; exact hc, fun x hx hcb => ?_⟩
    rcases hnew x hx with h1 | ⟨id, _, h1⟩
    · exact ht x h1 hcb
    · rw [hcb] at h1
      exact Callback.noConfusion h1
  cases e with
  | input v => exact calm _ (calm_onInput newURL v s)
  | submit => exact calm _ (calm_onSubmit newURL s)
  | clickCopy j =>
    have hnow := (quiet_copyBtnOnclick j s).1
    simp only [step]
    refine ⟨by rw [hnow]; exact h0, fun hlt => ?_⟩
    rw [hnow] at hlt
    obtain ⟨hc, ht⟩ := h hlt
    refine ⟨?_, fun x hx hcb => ?_⟩
    · rw [buttonHTML_copyBtnOnclick, hc]
      split <;> rfl
    · rcases mem_timers_copyBtnOnclick j s x hx with h1 | ⟨id, _, h1⟩ | h1
      · exact ht x h1 hcb
      · rw [hcb] at h1
        exact Callback.noConfusion h1
      · rw [h1]
        exact Nat.add_le_add_right h0 2000
  | clipboardDone => exact calm _ (calm_clipboardDone newURL s)
  | dismiss j => exact calm _ (calm_removeNode j s)
  | notify m t => exact calm _ (calm_showAlert m t s)
  | showLoading => exact calm _ (calm_showLoadingModal s)
  | hideLoading => exact calm _ (calm_hideLoadingModal s)
  | advance ms =>
    simp only [step]
    rw [advance_now]
    refine ⟨Nat.le_trans h0 (Nat.le_add_right _ _), fun hlt => ?_⟩
    obtain ⟨hc, ht⟩ := h (Nat.lt_of_le_of_lt (Nat.le_add_right _ _) hlt)
    refine ⟨?_, fun x hx hcb => ?_⟩
    · rw [buttonHTML_advance_early i ms s
        (fun x hx hcb => Nat.lt_of_lt_of_le hlt (ht x hx hcb))]
      exact hc
    · exact ht x ((mem_advance_timers ms s x).mp hx).1 hcb

theorem check_window_run (newURL : String → Option URL) (evs : List Event) (s : Page)
    (i t0 : Nat) (h0 : t0 ≤ s.now)
    (h : s.now < t0 + 2000 → buttonHTML i s = some checkIcon ∧
      ∀ x ∈ s.timers, x.callback = Callback.revertCopyIcon i → t0 + 2000 ≤ x.due) :
    (run newURL evs s).now < t0 + 2000 → buttonHTML i (run newURL evs s) = some checkIcon := by
  induction evs generalizing s with
  | nil => exact fun hlt => (h hlt).1
  | cons e evs ih =>
    obtain ⟨a, b⟩ := check_window_step newURL e s i t0 h0 h
    exact ih (step newURL e s) a b

/-- One event other than a click on the button keeps its pending revert: the
revert stays registered until it is due, and from then on the button shows the
copy icon. -/
theorem revert_step (newURL : String → Option URL) (e : Event) (s : Page) (i D : Nat)
    (he : e ≠ Event.clickCopy i)
    (hsome : (buttonHTML i s).isSome = true)
    (h1 : s.now < D →
      ({ due := D, callback := Callback.revertCopyIcon i } : Timer) ∈ s.timers)
    (h2 : D ≤ s.now → buttonHTML i s = some copyIcon) :
    (buttonHTML i (step newURL e s)).isSome = true ∧
    ((step newURL e s).now < D →
      ({ due := D, callback := Callback.revertCopyIcon i } : Timer) ∈ (step newURL e s).timers) ∧
    (D ≤ (step newURL e s).now → buttonHTML i (step newURL e s) = some copyIcon) := by
  have quiet : ∀ t : Page, t.now = s.now → buttonHTML i t = buttonHTML i s →
      (∀ x ∈ s.timers, x ∈ t.timers) →
      (buttonHTML i t).isSome = true ∧
      (t.now < D → ({ due := D, callback := Callback.revertCopyIcon i } : Timer) ∈ t.timers) ∧
      (D ≤ t.now → buttonHTML i t = some copyIcon) := by
    intro t a b c
    rw [a, b]
    exact ⟨hsome, fun hlt => c _ (h1 hlt), h2⟩
  have calm : ∀ t : Page, Calm s t →
      (buttonHTML i t).isSome = true ∧
      (t.now < D → ({ due := D, callback := Callback.revertCopyIcon i } : Timer) ∈ t.timers) ∧
      (D ≤ t.now → buttonHTML i t = some copyIcon) :=
    fun t hc => quiet t hc.1 (buttonHTML_congr i s t hc.2.2.2.2.1) hc.2.2.2.1
  cases e with
  | input v => exact calm _ (calm_onInput newURL v s)
  | submit => exact calm _ (calm_onSubmit newURL s)
  | clickCopy j =>
    have hij : ¬ i = j := fun hij => he (by rw [hij])
    refine quiet _ (quiet_copyBtnOnclick j s).1 ?_ (quiet_copyBtnOnclick j s).2.2.2
    simp only [step]
    rw [buttonHTML_copyBtnOnclick, if_neg hij]
  | clipboardDone => exact calm _ (calm_clipboardDone newURL s)
  | dismiss j => exact calm _ (calm_removeNode j s)
  | notify m t => exact calm _ (calm_showAlert m t s)
  | showLoading => exact calm _ (calm_showLoadingModal s)
  | hideLoading => exact calm _ (calm_hideLoadingModal s)
  | advance ms =>
    simp only [step]
    rw [advance_now, isSome_buttonHTML_advance]
    refine ⟨hsome, fun hlt => ?_, fun hge => ?_⟩
    · exact (mem_advance_timers ms s _).mpr
        ⟨h1 (Nat.lt_of_le_of_lt (Nat.le_add_right _ _) hlt), hlt⟩
    · by_cases hd : D ≤ s.now
      · exact buttonHTML_advance_copy i ms s (h2 hd)
      · exact buttonHTML_advance_due i ms s _ hsome (h1 (Nat.lt_of_not_le hd)) rfl hge

theorem revert_run (newURL : String → Option URL) (evs : List Event) (s : Page) (i D : Nat)
    (he : Event.clickCopy i ∉ evs)
    (hsome : (buttonHTML i s).isSome = true)
    (h1 : s.now < D →
      ({ due := D, callback := Callback.revertCopyIcon i } : Timer) ∈ s.timers)
    (h2 : D ≤ s.now → buttonHTML i s = some copyIcon) :
    D ≤ (run newURL evs s).now → buttonHTML i (run newURL evs s) = some copyIcon := by
  induction evs generalizing s with
  | nil => exact h2
  | cons e evs ih =>
    have hne : e ≠ Event.clickCopy i := fun h => he (h ▸ List.mem_cons_self _ _)
    obtain ⟨a, b, c⟩ := revert_step newURL e s i D hne hsome h1 h2
    exact ih (step newURL e s) (fun h => he (List.mem_cons_of_mem _ h)) a b c

/-! ## Copy buttons and their code elements -/

theorem map_textContent_setButtonHTML (html : String) (i : Nat) (bs : List CopyBtn) :
    (setButtonHTML html i bs).map (fun b => b.textContent) = bs.map (fun b => b.textContent) := by
  induction bs generalizing i with
  | nil => simp [setButtonHTML]
  | cons b bs ih =>
    cases i with
    | zero => rfl
    | succ i => simp only [setButtonHTML, List.map_cons, ih]

theorem textContent_runCallback (cb : Callback) (s : Page) :
    (runCallback cb s).copyButtons.map (fun b => b.textContent) =
      s.copyButtons.map (fun b => b.textContent) := by
  cases cb with
  | revertCopyIcon i => exact map_textContent_setButtonHTML copyIcon i s.copyButtons
  | removeAlert id => simp only [runCallback]; split <;> rfl

theorem textContent_advance (ms : Nat) (s : Page) :
    (advance ms s).copyButtons.map (fun b => b.textContent) =
      s.copyButtons.map (fun b => b.textContent) := by
  have fold : ∀ (ts : List Timer) (u : Page),
      (ts.foldl (fun acc x => runCallback x.callback acc) u).copyButtons.map
        (fun b => b.textContent) = u.copyButtons.map (fun b => b.textContent) := by
    intro ts
    induction ts with
    | nil => intro u; rfl
    | cons t ts ih =>
      intro u
      simp only [List.foldl_cons]
      rw [ih, textContent_runCallback]
  simp only [advance]
  rw [fold]

/-- No event changes the text of a code element. -/
theorem textContent_step (newURL : String → Option URL) (e : Event) (s : Page) :
    (step newURL e s).copyButtons.map (fun b => b.textContent) =
      s.copyButtons.map (fun b => b.textContent) := by
  have calm : ∀ t : Page, Calm s t →
      t.copyButtons.map (fun b => b.textContent) = s.copyButtons.map (fun b => b.textContent) :=
    fun t hc => by rw [hc.2.2.2.2.1]
  cases e with
  | input v => exact calm _ (calm_onInput newURL v s)
  | submit => exact calm _ (calm_onSubmit newURL s)
  | clickCopy i =>
    simp only [step, copyBtnOnclick]
    split
    · rfl
    · rename_i b _
      simp only [map_textContent_setButtonHTML]
      exact calm _ (calm_copyToClipboard b.textContent s)
  | clipboardDone => exact calm _ (calm_clipboardDone newURL s)
  | dismiss j => exact calm _ (calm_removeNode j s)
  | notify m t => exact calm _ (calm_showAlert m t s)
  | showLoading => exact calm _ (calm_showLoadingModal s)
  | hideLoading => exact calm _ (calm_hideLoadingModal s)
  | advance ms => exact textContent_advance ms s

theorem textContent_run (newURL : String → Option URL) (evs : List Event) (s : Page) :
    (run newURL evs s).copyButtons.map (fun b => b.textContent) =
      s.copyButtons.map (fun b => b.textContent) := by
  induction evs generalizing s with
  | nil => rfl
  | cons e evs ih =>
    have h := ih (step newURL e s)
    simp only [run, List.foldl_cons] at h ⊢
    rw [h, textContent_step]

/-- The button `setupCopyToClipboard` creates for the code element number `j`. -/
theorem get?_setupCopyToClipboard (codes : List String) (s0 : Page) (j : Nat) (text : String)
    (hj : codes.get? j = some text) :
    (setupCopyToClipboard codes s0).copyButtons.get? (s0.copyButtons.length + j) =
      some { textContent := text, innerHTML := copyIcon } := by
  simp only [setupCopyToClipboard, List.get?_eq_getElem?] at hj ⊢
  rw [List.getElem?_append_right (Nat.le_add_right _ _), Nat.add_sub_cancel_left,
    List.getElem?_map, hj]
  rfl

/-- After any events the button created for a code element still belongs to it. -/
theorem button_of_code (newURL : String → Option URL) (codes : List String) (s0 : Page)
    (pre : List Event) (j : Nat) (text : String) (hj : codes.get? j = some text) :
    ∃ b, (run newURL pre (setupCopyToClipboard codes s0)).copyButtons.get?
        (s0.copyButtons.length + j) = some b ∧ b.textContent = text := by
  have h1 := get?_setupCopyToClipboard codes s0 j text hj
  have h2 := congrArg (fun l => l.get? (s0.copyButtons.length + j))
    (textContent_run newURL pre (setupCopyToClipboard codes s0))
  simp only [List.get?_eq_getElem?, List.getElem?_map] at h1 h2
  rw [h1] at h2
  simp only [Option.map_some'] at h2
  rw [List.get?_eq_getElem?]
  cases hb : (run newURL pre (setupCopyToClipboard codes s0)).copyButtons[
      s0.copyButtons.length + j]? with
  | none => rw [hb] at h2; exact Option.noConfusion h2
  | some b =>
    rw [hb] at h2
    exact ⟨b, rfl, Option.some.inj h2⟩

/-- What a click on the copy button `i` of any page does. -/
theorem copy_click (newURL : String → Option URL) (s : Page) (i : Nat) (b : CopyBtn)
    (hb : s.copyButtons.get? i = some b) :
    (copyBtnOnclick i s).clipboardOps = s.clipboardOps ++
      [if s.hasClipboard then ClipboardOp.writeText b.textContent
        else ClipboardOp.execCopy b.textContent] ∧
    buttonHTML i (copyBtnOnclick i s) = some checkIcon ∧
    (∀ evs : List Event, (∀ x ∈ s.timers, x.callback ≠ Callback.revertCopyIcon i) →
      elapsed evs < 2000 →
      buttonHTML i (run newURL evs (copyBtnOnclick i s)) = some checkIcon) ∧
    (∀ evs : List Event, Event.clickCopy i ∉ evs → 2000 ≤ elapsed evs →
      buttonHTML i (run newURL evs (copyBtnOnclick i s)) = some copyIcon) := by
  have hnow : (copyBtnOnclick i s).now = s.now := (quiet_copyBtnOnclick i s).1
  have hcheck : buttonHTML i (copyBtnOnclick i s) = some checkIcon := by
    rw [buttonHTML_copyBtnOnclick, if_pos rfl]
    unfold buttonHTML
    rw [hb]
    rfl
  refine ⟨copyBtnOnclick_clipboardOps i s b hb, hcheck, ?_, ?_⟩
  · intro evs hfree hel
    apply check_window_run newURL evs (copyBtnOnclick i s) i s.now (Nat.le_of_eq hnow.symm)
    · intro _
      refine ⟨hcheck, fun x hx hcb => ?_⟩
      rcases mem_timers_copyBtnOnclick i s x hx with h1 | ⟨id, _, h1⟩ | h1
      · exact absurd hcb (hfree x h1)
      · rw [hcb] at h1
        exact Callback.noConfusion h1
      · rw [h1]
    · rw [run_now, hnow]
      omega
  · intro evs hno hel
    apply revert_run newURL evs (copyBtnOnclick i s) i (s.now + 2000) hno
    · rw [hcheck]; rfl
    · intro _
      exact copyBtnOnclick_timers i s b hb
    · intro hge
      rw [hnow] at hge
      omega
    · rw [run_now, hnow]
      omega

/-- C6, counterexample: the first copy button is clicked, and clicked again
1500ms later; 500ms after the second click it shows the copy icon again, not
the check icon. -/
theorem C6_second_click_reverts_early :
    buttonHTML 0 (run sampleURL [Event.clickCopy 0, Event.advance 1500, Event.clickCopy 0]
      samplePage) = some checkIcon ∧
    buttonHTML 0 (run sampleURL
      [Event.clickCopy 0, Event.advance 1500, Event.clickCopy 0, Event.advance 500]
      samplePage) = some copyIcon := by
  decide

/-- C6, amended: setupCopyToClipboard gives every code element a button with
the copy icon.  On the page `s` reached from there by any sequence of events
`pre`, every click on the button of a code element hands exactly the text
content of that element to the clipboard and puts the check icon on the button;
once 2000ms have passed after the click without another click on that same
button it shows the copy icon, whatever clicks the other buttons received; and
if no revert of that button was pending at the click (it had not been clicked
during the preceding 2000ms), it keeps the check icon until 2000ms have passed,
whatever happens on the page. -/
theorem C6_copy_button (newURL : String → Option URL) (s0 : Page) (codes : List String)
    (pre : List Event) (j : Nat) (text : String) (hj : codes.get? j = some text)
    (s : Page) (hs : s = run newURL pre (setupCopyToClipboard codes s0))
    (i : Nat) (hi : i = s0.copyButtons.length + j) :
    buttonHTML i (setupCopyToClipboard codes s0) = some copyIcon ∧
    (copyBtnOnclick i s).clipboardOps = s.clipboardOps ++
      [if s.hasClipboard then ClipboardOp.writeText text else ClipboardOp.execCopy text] ∧
    buttonHTML i (copyBtnOnclick i s) = some checkIcon ∧
    (∀ evs : List Event, Event.clickCopy i ∉ evs → 2000 ≤ elapsed evs →
      buttonHTML i (run newURL evs (copyBtnOnclick i s)) = some copyIcon) ∧
    (∀ evs : List Event, (∀ x ∈ s.timers, x.callback ≠ Callback.revertCopyIcon i) →
      elapsed evs < 2000 →
      buttonHTML i (run newURL evs (copyBtnOnclick i s)) = some checkIcon) := by
  subst hs hi
  obtain ⟨b, hb, htext⟩ := button_of_code newURL codes s0 pre j text hj
  obtain ⟨h1, h2, h3, h4⟩ := copy_click newURL _ _ b hb
  rw [htext] at h1
  refine ⟨?_, h1, h2, h4, h3⟩
  unfold buttonHTML
  rw [get?_setupCopyToClipboard codes s0 j text hj]
  rfl

theorem C6_copy_button_witness :
    (buttonHTML 1 samplePage = some copyIcon ∧
      (copyBtnOnclick 1 clickedBeforePage).clipboardOps = clickedBeforePage.clipboardOps ++
        [if clickedBeforePage.hasClipboard then ClipboardOp.writeText "python app.py"
          else ClipboardOp.execCopy "python app.py"] ∧
      buttonHTML 1 (copyBtnOnclick 1 clickedBeforePage) = some checkIcon ∧
      (∀ evs : List Event, Event.clickCopy 1 ∉ evs → 2000 ≤ elapsed evs →
        buttonHTML 1 (run sampleURL evs (copyBtnOnclick 1 clickedBeforePage)) = some copyIcon) ∧
      (∀ evs : List Event,
        (∀ x ∈ clickedBeforePage.timers, x.callback ≠ Callback.revertCopyIcon 1) →
        elapsed evs < 2000 →
        buttonHTML 1 (run sampleURL evs (copyBtnOnclick 1 clickedBeforePage)) = some checkIcon)) ∧
    (∀ evs : List Event, elapsed evs < 2000 →
      buttonHTML 1 (run sampleURL evs (copyBtnOnclick 1 samplePage)) = some checkIcon) :=
  ⟨C6_copy_button sampleURL sampleBase ["pip install", "python app.py"]
      [Event.clickCopy 1, Event.advance 1500] 1 "python app.py" (by decide)
      clickedBeforePage rfl 1 (by decide),
    fun evs => (C6_copy_button sampleURL sampleBase ["pip install", "python app.py"]
      [] 1 "python app.py" (by decide) samplePage rfl 1 (by decide)).2.2.2.2 evs (by decide)⟩

/-! ## Notifications stay until their timer fires -/

theorem attached_congr (id : Nat) (s t : Page) (h : t.containers = s.containers) :
    attached id t = attached id s := by
  simp [attached, h]

theorem mem_prependChild_of_mem (n : Node) (k : Nat) (cs : List Container) (c : Container)
    (h : c ∈ cs) :
    c ∈ prependChild n k cs ∨ { c with children := n :: c.children } ∈ prependChild n k cs := by
  induction cs generalizing k with
  | nil => simp at h
  | cons d cs ih =>
    simp only [List.mem_cons] at h
    cases k with
    | zero =>
      simp only [prependChild, List.mem_cons]
      rcases h with h | h
      · subst h; exact Or.inr (Or.inl rfl)
      · exact Or.inl (Or.inr h)
    | succ k =>
      simp only [prependChild, List.mem_cons]
      rcases h with h | h
      · exact Or.inl (Or.inl h)
      · rcases ih k h with h2 | h2
        · exact Or.inl (Or.inr h2)
        · exact Or.inr (Or.inr h2)

theorem attached_showAlert_keep (id : Nat) (message type : String) (s : Page)
    (h : attached id s = true) : attached id (showAlert message type s) = true := by
  unfold showAlert
  split
  · exact h
  · rw [attached_iff] at h ⊢
    obtain ⟨c, hc, n, hn, rfl⟩ := h
    rcases mem_prependChild_of_mem (alertDiv s.nextId message type) _ _ c hc with h1 | h1
    · exact ⟨c, h1, n, hn, rfl⟩
    · exact ⟨_, h1, n, List.mem_cons_of_mem _ hn, rfl⟩

theorem validateUrl_containers (newURL : String → Option URL) (url : String) (s : Page) :
    (validateUrl newURL url s).2.containers = s.containers := by
  obtain ⟨cl, hcl⟩ := validateUrl_frame newURL url s
  rw [hcl]

theorem showLoadingModal_containers (s : Page) :
    (showLoadingModal s).containers = s.containers := by
  unfold showLoadingModal; split <;> rfl

theorem hideLoadingModal_containers (s : Page) :
    (hideLoadingModal s).containers = s.containers := by
  unfold hideLoadingModal; split <;> rfl

theorem attached_copyToClipboard_keep (id : Nat) (text : String) (s : Page)
    (h : attached id s = true) : attached id (copyToClipboard text s) = true := by
  unfold copyToClipboard
  split
  · exact h
  · exact attached_showAlert_keep id _ _ _ h

/-- No event but the dismissal of a notification and the passing of time takes
it off the page. -/
theorem attached_step_keep (newURL : String → Option URL) (e : Event) (s : Page) (id : Nat)
    (hd : e ≠ Event.dismiss id) (hadv : ∀ ms, e ≠ Event.advance ms)
    (h : attached id s = true) : attached id (step newURL e s) = true := by
  cases e with
  | input v =>
    simp only [step, onInput]
    exact (attached_congr id s _
      (validateUrl_containers newURL v { s with urlValue := v })).trans h
  | submit =>
    have hv : attached id (validateUrl newURL s.urlValue s).2 = true := by
      rw [attached_congr id s _ (validateUrl_containers newURL s.urlValue s)]
      exact h
    simp only [step, onSubmit]
    split
    · exact attached_showAlert_keep id _ _ _ hv
    · exact (attached_congr id (validateUrl newURL s.urlValue s).2 _
        (showLoadingModal_containers _)).trans hv
  | clickCopy i =>
    simp only [step, copyBtnOnclick]
    split
    · exact h
    · rename_i b _
      exact attached_copyToClipboard_keep id b.textContent s h
  | clipboardDone =>
    simp only [step]
    split
    · exact h
    · exact attached_showAlert_keep id _ _ _ h
  | dismiss j =>
    have hne : id ≠ j := fun hij => hd (by rw [hij])
    exact (attached_removeNode id j s).mpr ⟨h, hne⟩
  | notify m t => exact attached_showAlert_keep id m t s h
  | showLoading =>
    simp only [step]
    rw [attached_congr id s _ (showLoadingModal_containers s)]
    exact h
  | hideLoading =>
    simp only [step]
    rw [attached_congr id s _ (hideLoadingModal_containers s)]
    exact h
  | advance ms => exact absurd rfl (hadv ms)

theorem attached_runCallback_keep (id : Nat) (cb : Callback) (s : Page)
    (hcb : cb ≠ Callback.removeAlert id) (h : attached id s = true) :
    attached id (runCallback cb s) = true := by
  cases cb with
  | revertCopyIcon i => exact h
  | removeAlert j =>
    have hne : id ≠ j := fun hij => hcb (by rw [hij])
    simp only [runCallback]
    split
    · exact (attached_removeNode id j s).mpr ⟨h, hne⟩
    · exact h

theorem attached_foldl_keep (id : Nat) (ts : List Timer) (s : Page)
    (hts : ∀ t ∈ ts, t.callback ≠ Callback.removeAlert id) (h : attached id s = true) :
    attached id (ts.foldl (fun acc x => runCallback x.callback acc) s) = true := by
  induction ts generalizing s with
  | nil => exact h
  | cons t ts ih =>
    simp only [List.foldl_cons]
    exact ih _ (fun x hx => hts x (List.mem_cons_of_mem _ hx))
      (attached_runCallback_keep id _ s (hts t (List.mem_cons_self _ _)) h)

theorem attached_advance_keep (id ms : Nat) (s : Page)
    (hearly : ∀ x ∈ s.timers, x.callback = Callback.removeAlert id → s.now + ms < x.due)
    (h : attached id s = true) : attached id (advance ms s) = true := by
  simp only [advance]
  apply attached_foldl_keep
  · intro t ht hcb
    obtain ⟨hm, hdue⟩ := (mem_fired _ _ _).mp ht
    exact absurd hdue (Nat.not_le_of_lt (hearly t hm hcb))
  · exact h

/-- One event other than its dismissal keeps a notification on the page while
its removal is not due: it is attached and every pending removal of it is due
at `D` or later. -/
theorem stays_step (newURL : String → Option URL) (e : Event) (s : Page) (id D : Nat)
    (hd : e ≠ Event.dismiss id) (h1 : id < s.nextId)
    (h2 : s.now < D → attached id s = true ∧
      ∀ x ∈ s.timers, x.callback = Callback.removeAlert id → D ≤ x.due) :
    id < (step newURL e s).nextId ∧
    ((step newURL e s).now < D → attached id (step newURL e s) = true ∧
      ∀ x ∈ (step newURL e s).timers, x.callback = Callback.removeAlert id → D ≤ x.due) := by
  have quiet : (∀ ms, e ≠ Event.advance ms) → (step newURL e s).now = s.now →
      s.nextId ≤ (step newURL e s).nextId →
      (∀ x ∈ (step newURL e s).timers, x ∈ s.timers ∨
        (∃ j, s.nextId ≤ j ∧ x.callback = Callback.removeAlert j) ∨
        ∃ j, x.callback = Callback.revertCopyIcon j) →
      id < (step newURL e s).nextId ∧
      ((step newURL e s).now < D → attached id (step newURL e s) = true ∧
        ∀ x ∈ (step newURL e s).timers, x.callback = Callback.removeAlert id → D ≤ x.due) := by
    intro hadv a b c
    refine ⟨Nat.lt_of_lt_of_le h1 b, fun hlt => ?_⟩
    rw [a] at hlt
    obtain ⟨hat, ht⟩ := h2 hlt
    refine ⟨attached_step_keep newURL e s id hd hadv hat, fun x hx hcb => ?_⟩
    rcases c x hx with h3 | ⟨j, hj, h3⟩ | ⟨j, h3⟩
    · exact ht x h3 hcb
    · rw [hcb] at h3
      injection h3 with h4
      omega
    · rw [hcb] at h3
      exact Callback.noConfusion h3
  have calm : (∀ ms, e ≠ Event.advance ms) → Calm s (step newURL e s) →
      id < (step newURL e s).nextId ∧
      ((step newURL e s).now < D → attached id (step newURL e s) = true ∧
        ∀ x ∈ (step newURL e s).timers, x.callback = Callback.removeAlert id → D ≤ x.due) := by
    intro hadv hc
    refine quiet hadv hc.1 hc.2.1 (fun x hx => ?_)
    rcases hc.2.2.2.2.2 x hx with h3 | h3
    · exact Or.inl h3
    · exact Or.inr (Or.inl h3)
  cases e with
  | input v => exact calm (fun _ => Event.noConfusion) (calm_onInput newURL v s)
  | submit => exact calm (fun _ => Event.noConfusion) (calm_onSubmit newURL s)
  | clickCopy i =>
    refine quiet (fun _ => Event.noConfusion) (quiet_copyBtnOnclick i s).1
      (quiet_copyBtnOnclick i s).2.1 (fun x hx => ?_)
    rcases mem_timers_copyBtnOnclick i s x hx with h3 | h3 | h3
    · exact Or.inl h3
    · exact Or.inr (Or.inl h3)
    · exact Or.inr (Or.inr ⟨i, by rw [h3]⟩)
  | clipboardDone => exact calm (fun _ => Event.noConfusion) (calm_clipboardDone newURL s)
  | dismiss j => exact calm (fun _ => Event.noConfusion) (calm_removeNode j s)
  | notify m t => exact calm (fun _ => Event.noConfusion) (calm_showAlert m t s)
  | showLoading => exact calm (fun _ => Event.noConfusion) (calm_showLoadingModal s)
  | hideLoading => exact calm (fun _ => Event.noConfusion) (calm_hideLoadingModal s)
  | advance ms =>
    simp only [step]
    rw [advance_now, advance_nextId]
    refine ⟨h1, fun hlt => ?_⟩
    obtain ⟨hat, ht⟩ := h2 (Nat.lt_of_le_of_lt (Nat.le_add_right _ _) hlt)
    refine ⟨attached_advance_keep id ms s
      (fun x hx hcb => Nat.lt_of_lt_of_le hlt (ht x hx hcb)) hat, fun x hx hcb => ?_⟩
    exact ht x ((mem_advance_timers ms s x).mp hx).1 hcb

theorem stays_run (newURL : String → Option URL) (evs : List Event) (s : Page) (id D : Nat)
    (hd : Event.dismiss id ∉ evs) (h1 : id < s.nextId)
    (h2 : s.now < D → attached id s = true ∧
      ∀ x ∈ s.timers, x.callback = Callback.removeAlert id → D ≤ x.due) :
    (run newURL evs s).now < D → attached id (run newURL evs s) = true := by
  induction evs generalizing s with
  | nil => exact fun hlt => (h2 hlt).1
  | cons e evs ih =>
    have hne : e ≠ Event.dismiss id := fun h => hd (h ▸ List.mem_cons_self _ _)
    obtain ⟨a, b⟩ := stays_step newURL e s id D hne h1 h2
    exact ih (step newURL e s) (fun h => hd (List.mem_cons_of_mem _ h)) a b

theorem attached_showAlert_new (message type : String) (s : Page) (k : Nat)
    (hk : alertContainer s = some k) :
    attached s.nextId (showAlert message type s) = true := by
  have hch := childrenOf_showAlert message type s k hk
  rw [attached_iff]
  unfold childrenOf at hch
  cases hget : (showAlert message type s).containers.get? k with
  | none => rw [hget] at hch; exact List.noConfusion hch
  | some c =>
    rw [hget] at hch
    have hch2 : c.children = alertDiv s.nextId message type :: childrenOf k s := hch
    exact ⟨c, List.get?_mem hget, alertDiv s.nextId message type, by rw [hch2]; simp, rfl⟩

/-- C7: showError and showSuccess are showAlert with the severities danger and
success.  When the page has a container, the notification showAlert creates
becomes the first child of that container and its removal is scheduled 5000ms
later; unless it is dismissed it stays on the page while less than 5000ms have
passed (its node being new, no earlier timer refers to it); after any sequence
of events that takes 5000ms or more it is no longer on the page; and the timer
callback removes the notification when it is still attached and leaves the page
as it is when it is not. -/
theorem C7_notification_lifecycle (newURL : String → Option URL) (message type : String)
    (s : Page) (k : Nat) (hk : alertContainer s = some k) :
    showError message s = showAlert message "danger" s ∧
    showSuccess message s = showAlert message "success" s ∧
    childrenOf k (showAlert message type s) = alertDiv s.nextId message type :: childrenOf k s ∧
    (showAlert message type s).timers =
      s.timers ++ [{ due := s.now + 5000, callback := Callback.removeAlert s.nextId }] ∧
    (∀ evs : List Event, (∀ x ∈ s.timers, x.callback ≠ Callback.removeAlert s.nextId) →
      Event.dismiss s.nextId ∉ evs → elapsed evs < 5000 →
      attached s.nextId (run newURL evs (showAlert message type s)) = true) ∧
    (∀ evs : List Event, 5000 ≤ elapsed evs →
      attached s.nextId (run newURL evs (showAlert message type s)) = false) ∧
    (∀ t : Page, attached s.nextId (runCallback (Callback.removeAlert s.nextId) t) = false ∧
      (attached s.nextId t = false → runCallback (Callback.removeAlert s.nextId) t = t)) := by
  have htimers : (showAlert message type s).timers =
      s.timers ++ [{ due := s.now + 5000, callback := Callback.removeAlert s.nextId }] := by
    simp only [showAlert, hk]
  have hnext : s.nextId < (showAlert message type s).nextId := by
    simp only [showAlert, hk]; exact Nat.lt_succ_self _
  refine ⟨rfl, rfl, childrenOf_showAlert message type s k hk, htimers, ?_, ?_, ?_⟩
  · intro evs hfresh hnd hel
    apply stays_run newURL evs (showAlert message type s) s.nextId (s.now + 5000) hnd hnext
    · intro _
      refine ⟨attached_showAlert_new message type s k hk, fun x hx hcb => ?_⟩
      rw [htimers] at hx
      rcases List.mem_append.mp hx with h | h
      · exact absurd hcb (hfresh x h)
      · simp only [List.mem_singleton] at h
        rw [h]
    · rw [run_now, showAlert_now]
      omega
  · intro evs hel
    cases h : attached s.nextId (run newURL evs (showAlert message type s)) with
    | false => rfl
    | true =>
      have hlt := removal_pending_run newURL evs (showAlert message type s) s.nextId
        (s.now + 5000) hnext
        (fun _ => ⟨by rw [htimers]; simp, by rw [showAlert_now]; omega⟩) h
      rw [run_now, showAlert_now] at hlt
      omega
  · intro t
    refine ⟨not_attached_removeAlert s.nextId t, fun h => ?_⟩
    simp [runCallback, h]

theorem C7_notification_lifecycle_witness :
    showError "oops" samplePage = showAlert "oops" "danger" samplePage ∧
    showSuccess "oops" samplePage = showAlert "oops" "success" samplePage ∧
    childrenOf 0 (showAlert "oops" "danger" samplePage) =
      alertDiv samplePage.nextId "oops" "danger" :: childrenOf 0 samplePage ∧
    (showAlert "oops" "danger" samplePage).timers =
      samplePage.timers ++
        [{ due := samplePage.now + 5000, callback := Callback.removeAlert samplePage.nextId }] ∧
    (∀ evs : List Event,
      (∀ x ∈ samplePage.timers, x.callback ≠ Callback.removeAlert samplePage.nextId) →
      Event.dismiss samplePage.nextId ∉ evs → elapsed evs < 5000 →
      attached samplePage.nextId (run sampleURL evs (showAlert "oops" "danger" samplePage)) = true) ∧
    (∀ evs : List Event, 5000 ≤ elapsed evs →
      attached samplePage.nextId (run sampleURL evs (showAlert "oops" "danger" samplePage)) = false) ∧
    (∀ t : Page,
      attached samplePage.nextId (runCallback (Callback.removeAlert samplePage.nextId) t) = false ∧
      (attached samplePage.nextId t = false →
        runCallback (Callback.removeAlert samplePage.nextId) t = t)) :=
  C7_notification_lifecycle sampleURL "oops" "danger" samplePage 0 (by decide)

end MainJs
